import Mathlib

/-!
# res-downloader: `core/resource.go`

A shallow embedding of the resource registry, the download task and the
WeChat file decoder of `core/resource.go`, followed by theorems about them.

Conventions of the embedding

* A Go `string` is a Lean `String` (a sequence of code points); a `[]byte`
  is a `List Nat` whose entries stand for bytes.  No theorem below needs the
  bound `< 256`; `decodeWxFile_bytes_lt` shows that the decoder preserves it.
* A Go `map[string]V` that is only stored to and loaded from is a finite
  partial function `String → Option V` (`GoMap V`).
* The file system is a partial function from paths to file contents.
* Functions of the Go standard library and of other files of the repository
  whose code is not part of `resource.go` are collected in the structure
  `Platform` and passed explicitly; `refPlatform` is a reference
  instance used to evaluate the code on concrete inputs.
-/

deriving instance DecidableEq for Except

namespace ResDownloader

/-! ## Go maps -/

/-- A Go map with string keys that is only stored to and loaded from. -/
abbrev GoMap (V : Type) := String → Option V

namespace GoMap

/-- The map literal `map[string]V{}`. -/
def empty {V : Type} : GoMap V := fun _ => none

/-- The assignment `m[k] = v`. -/
def store {V : Type} (m : GoMap V) (k : String) (v : V) : GoMap V :=
  fun x => if x = k then some v else m x

/-- The statement `delete(m, k)`. -/
def erase {V : Type} (m : GoMap V) (k : String) : GoMap V :=
  fun x => if x = k then none else m x

/-- A map literal listing its entries in order (a later entry wins). -/
def ofList {V : Type} (entries : List (String × V)) : GoMap V :=
  entries.foldl (fun m e => store m e.1 e.2) empty

end GoMap

/-! ## The resource registry (`Resource`, lines 30-97) -/

/-- The struct `Resource`: `mediaMark` is the `sync.Map` of marked signatures
(its values are always `true`), `resType` the category filter.  The mutex
`resTypeMu` has no sequential content. -/
structure Resource where
  mediaMark : GoMap Bool
  resType : GoMap Bool

/-- The nine category names of the map literals in `initResource` and
`setResType`, in source order. -/
def knownResTypes : List String :=
  ["all", "image", "audio", "video", "m3u8", "live", "xls", "doc", "pdf"]

/-- The value `initResource` builds when `resourceOnce` is nil: an empty
`sync.Map` and the nine categories mapped to `true`. -/
def initResource : Resource :=
  { mediaMark := GoMap.empty
    resType := GoMap.ofList (knownResTypes.map fun c => (c, true)) }

/-- The method `mediaIsMarked`: `_, loaded := r.mediaMark.Load(key)`. -/
def mediaIsMarked (r : Resource) (key : String) : Bool :=
  (r.mediaMark key).isSome

/-- The method `markMedia`: `r.mediaMark.Store(key, true)`. -/
def markMedia (r : Resource) (key : String) : Resource :=
  { r with mediaMark := r.mediaMark.store key true }

/-- The method `getResType`: `value, ok := r.resType[key]`; a missing key
yields the zero value `false` and `ok = false`. -/
def getResType (r : Resource) (key : String) : Bool × Bool :=
  match r.resType key with
  | some value => (value, true)
  | none => (false, false)

/-- The method `setResType`: the filter is reassigned to a fresh map with the
nine categories at `false`, then every name of `n` is stored as `true`. -/
def setResType (r : Resource) (n : List String) : Resource :=
  { r with
    resType :=
      n.foldl (fun m value => m.store value true)
        (GoMap.ofList (knownResTypes.map fun c => (c, false))) }

/-- The method `clear`: `r.mediaMark.Clear()`. -/
def clear (r : Resource) : Resource :=
  { r with mediaMark := GoMap.empty }

/-- The method `delete`: `r.mediaMark.Delete(sign)`. -/
def delete (r : Resource) (sign : String) : Resource :=
  { r with mediaMark := r.mediaMark.erase sign }

/-! ## Functions of the package `strings` -/

/-- The call `strings.Contains(s, substr)`: some suffix of `s` starts with
`substr`. -/
def stringsContains (s substr : String) : Bool :=
  s.data.tails.any fun t => substr.data.isPrefixOf t

/-- The fields of `strings.Split(s, sep)` for a separator of one character:
a new field starts after every occurrence of `sep`; the empty input has the
single field `""`. -/
def splitChars (sep : Char) : List Char → List (List Char)
  | [] => [[]]
  | c :: cs =>
    if c = sep then [] :: splitChars sep cs
    else
      match splitChars sep cs with
      | [] => [[c]]
      | f :: fs => (c :: f) :: fs

/-- The call `strings.Split(s, "#")`. -/
def stringsSplitHash (s : String) : List String :=
  (splitChars '#' s.data).map String.mk

/-- The loop of `strings.ReplaceAll`, left to right over non-overlapping
matches; `skip` counts the characters of a match still to be consumed. -/
def replaceAllAux (old new : List Char) : Nat → List Char → List Char
  | _, [] => []
  | skip + 1, _ :: cs => replaceAllAux old new skip cs
  | 0, c :: cs =>
    if old.isPrefixOf (c :: cs) then new ++ replaceAllAux old new (old.length - 1) cs
    else c :: replaceAllAux old new 0 cs

/-- The call `strings.ReplaceAll(s, old, new)` for a non-empty `old`. -/
def stringsReplaceAll (s old new : String) : String :=
  String.mk (replaceAllAux old.data new.data 0 s.data)

/-! ## Files -/

/-- The file system: the content of the regular file at each path, if any. -/
abbrev FileSystem := String → Option (List Nat)

/-- The file at `path` now holds `content`. -/
def FileSystem.put (fs : FileSystem) (path : String) (content : List Nat) : FileSystem :=
  fun p => if p = path then some content else fs p

/-- The call `file.Read(fileBytes)` at offset 0 on the zeroed buffer
`make([]byte, byteCount)`: the bytes present are copied, the rest of the
buffer keeps its zero value (the `io.EOF` of an empty file is tolerated by
the caller). -/
def readIntoZeroed (content : List Nat) (byteCount : Nat) : List Nat :=
  content.take byteCount ++ List.replicate (byteCount - content.length) 0

/-- The call `file.Write(data)` after `file.Seek(0, 0)`: the first
`len(data)` bytes are overwritten (the file grows if it was shorter), the
bytes after them are left alone. -/
def writeAtStart (content data : List Nat) : List Nat :=
  data ++ content.drop data.length

/-- The loop `for i := 0; i < byteCount; i++ { xorResult[i] = decodedBytes[i] ^ fileBytes[i] }`. -/
def xorLoop (byteCount : Nat) (decodedBytes fileBytes : List Nat) : List Nat :=
  (List.range byteCount).map fun i => decodedBytes.getD i 0 ^^^ fileBytes.getD i 0

/-- The method `decodeWxFile` (lines 235-266), given the function
`base64.StdEncoding.DecodeString`.  The result is the file system after the
call and the returned `error` (`none` for `nil`).  `os.OpenFile` with
`O_RDWR` fails when no file is at `fileName`; reading, seeking and writing an
open regular file do not fail. -/
def decodeWxFile (base64Decode : String → Except String (List Nat))
    (fs : FileSystem) (fileName decodeStr : String) : FileSystem × Option String :=
  match base64Decode decodeStr with
  | .error err => (fs, some err)
  | .ok decodedBytes =>
    match fs fileName with
    | none => (fs, some ("open " ++ fileName ++ ": no such file or directory"))
    | some content =>
      let byteCount := decodedBytes.length
      let fileBytes := readIntoZeroed content byteCount
      let xorResult := xorLoop byteCount decodedBytes fileBytes
      (fs.put fileName (writeAtStart content xorResult), none)

/-- The method `wxFileDecode` (lines 190-213).  The result is the file
system after the call and the Go pair `(string, error)`.  `os.Create`
creates the file or truncates the one already there; `io.Copy` then reads
the open source file, whose content is the one the file system holds at
that moment. -/
def wxFileDecode (base64Decode : String → Except String (List Nat))
    (fs : FileSystem) (fileName decodeStr : String) : FileSystem × Except String String :=
  match fs fileName with
  | none => (fs, .error ("open " ++ fileName ++ ": no such file or directory"))
  | some _ =>
    let savePath := stringsReplaceAll fileName ".mp4" "_解密.mp4"
    let fs1 := fs.put savePath []
    let copied := (fs1 fileName).getD []
    let fs2 := fs1.put savePath copied
    match decodeWxFile base64Decode fs2 savePath decodeStr with
    | (fs3, some err) => (fs3, .error err)
    | (fs3, none) => (fs3, .ok savePath)

/-! ## The download task (`download`, lines 99-167) -/

/-- The constant `DownloadStatusRunning`. -/
def DownloadStatusRunning : String := "running"

/-- The constant `DownloadStatusError`. -/
def DownloadStatusError : String := "error"

/-- The constant `DownloadStatusDone`. -/
def DownloadStatusDone : String := "done"

/-- The fields of `globalConfig` that `download` reads (the struct is
declared in another file of the package). -/
structure Config where
  SaveDirectory : String
  FilenameLen : Int
  FilenameTime : Bool
  TaskNumber : Int
  Quality : Int

/-- The struct `MediaInfo` (declared in another file of the package), with
the fields `resource.go` uses. -/
structure MediaInfo where
  Id : String
  Url : String
  Description : String
  Suffix : String
  SavePath : String
  OtherData : GoMap String

/-- The payload that `progressEventsEmit` hands to `httpServerOnce.send`
under the event name `downloadProgress`. -/
structure Event where
  Id : String
  Status : String
  SavePath : String
  Message : String
deriving DecidableEq, Repr

/-- The method `progressEventsEmit` (lines 215-233): the payload built from
the variadic `args`; the status defaults to `error`, the message to `ok`. -/
def progressEventsEmit (mediaInfo : MediaInfo) (args : List String) : Event :=
  let Status := DownloadStatusError
  let Message := "ok"
  let Message := if args.length > 0 then args.getD 0 "" else Message
  let Status := if args.length > 1 then args.getD 1 "" else Status
  { Id := mediaInfo.Id, Status := Status, SavePath := mediaInfo.SavePath, Message := Message }

/-- The character class `\w` of Go regular expressions: `[0-9A-Za-z_]`. -/
def isWordChar (c : Char) : Bool :=
  ('0' ≤ c && c ≤ '9') || ('A' ≤ c && c ≤ 'Z') || c = '_' || ('a' ≤ c && c ≤ 'z')

/-- The ranges of the table `unicode.Han` (the script Han, Unicode 15.0),
written with stride 1. -/
def hanRanges : List (Nat × Nat) :=
  [(0x2e80, 0x2e99), (0x2e9b, 0x2ef3), (0x2f00, 0x2fd5), (0x3005, 0x3005),
   (0x3007, 0x3007), (0x3021, 0x3029), (0x3038, 0x303b), (0x3400, 0x4dbf),
   (0x4e00, 0x9fff), (0xf900, 0xfa6d), (0xfa70, 0xfad9), (0x16fe2, 0x16fe3),
   (0x16ff0, 0x16ff1), (0x20000, 0x2a6df), (0x2a700, 0x2b739), (0x2b740, 0x2b81d),
   (0x2b820, 0x2cea1), (0x2ceb0, 0x2ebe0), (0x2f800, 0x2fa1d), (0x30000, 0x3134a),
   (0x31350, 0x323af)]

/-- The character class `\p{Han}`. -/
def isHan (c : Char) : Bool :=
  hanRanges.any fun r => r.1 ≤ c.toNat && c.toNat ≤ r.2

/-- The call `regexp.MustCompile("[^\\w\\p{Han}]").ReplaceAllString(s, "")`:
every character outside the two classes is deleted. -/
def stripDescription (s : String) : String :=
  String.mk (s.data.filter fun c => isWordChar c || isHan c)

/-- Lines 104-117: the file name before the time stamp and the suffix are
appended, given the function `Md5` of the package. -/
def fileNameOf (md5 : String → String) (cfg : Config) (mediaInfo : MediaInfo) : String :=
  let rawUrl := mediaInfo.Url
  let fileName := md5 rawUrl
  if mediaInfo.Description ≠ "" then
    let fileName := stripDescription mediaInfo.Description
    let fileLen := if cfg.FilenameLen ≤ 0 then 10 else cfg.FilenameLen
    let runes := fileName.data
    if (runes.length : Int) > fileLen then String.mk (runes.take fileLen.toNat) else fileName
  else fileName

/-- Lines 119-123: the value assigned to `mediaInfo.SavePath`, given
`filepath.Join` and the string `GetCurrentDateTimeFormatted()` returns. -/
def savePathOf (pathJoin : String → String → String) (now : String)
    (cfg : Config) (mediaInfo : MediaInfo) (fileName : String) : String :=
  if cfg.FilenameTime then
    pathJoin cfg.SaveDirectory (fileName ++ "_" ++ now ++ mediaInfo.Suffix)
  else
    pathJoin cfg.SaveDirectory (fileName ++ mediaInfo.Suffix)

/-- The fields of `url.URL` that `download` reads. -/
structure URL where
  Scheme : String
  Host : String
  Path : String
  RawQuery : String
deriving DecidableEq, Repr

/-- The method `url.Values.Has`. -/
def valuesHas (v : GoMap (List String)) (key : String) : Bool :=
  (v key).isSome

/-- The method `url.Values.Get`: the first value of the key, or `""`. -/
def valuesGet (v : GoMap (List String)) (key : String) : String :=
  match v key with
  | some (x :: _) => x
  | _ => ""

/-- A Go index expression `xs[i]` with an `int` index: a run-time panic
(here an error) when the index is out of range. -/
def goIndex (xs : List String) (i : Int) : Except String String :=
  if i < 0 then .error "index out of range"
  else
    match xs.get? i.toNat with
    | some x => .ok x
    | none => .error "index out of range"

/-- Lines 125-145: the value of `rawUrl` after quality negotiation, or the
run-time panic that ends the goroutine.  `urlParse` is `url.Parse`;
`parseQuery` is what the method `Query` computes from `RawQuery`.  When
`url.Parse` fails, `parseUrl` is nil and `parseUrl.Query()` dereferences it
before `err` is looked at. -/
def negotiateUrl (urlParse : String → Except String URL)
    (parseQuery : String → GoMap (List String))
    (cfg : Config) (mediaInfo : MediaInfo) : Except String String :=
  let rawUrl := mediaInfo.Url
  if stringsContains rawUrl "qq.com" then
    if cfg.Quality = 1 && stringsContains rawUrl "encfilekey=" &&
        stringsContains rawUrl "token=" then
      match urlParse rawUrl with
      | .error _ => .error "invalid memory address or nil pointer dereference"
      | .ok parseUrl =>
        let queryParams := parseQuery parseUrl.RawQuery
        if valuesHas queryParams "encfilekey" && valuesHas queryParams "token" then
          .ok (parseUrl.Scheme ++ "://" ++ parseUrl.Host ++ "/" ++ parseUrl.Path ++
            "?encfilekey=" ++ valuesGet queryParams "encfilekey" ++
            "&token=" ++ valuesGet queryParams "token")
        else .ok rawUrl
    else if cfg.Quality > 1 && (mediaInfo.OtherData "wx_file_formats").getD "" ≠ "" then
      let format := stringsSplitHash ((mediaInfo.OtherData "wx_file_formats").getD "")
      match goIndex format 0, goIndex format (format.length / 2),
          goIndex format (format.length - 1) with
      | .ok first, .ok middle, .ok last =>
        let qualityMap := [first, middle, last]
        match goIndex qualityMap (cfg.Quality - 2) with
        | .ok chosen => .ok (rawUrl ++ "&X-snsvideoflag=" ++ chosen)
        | .error e => .error e
      | _, _, _ => .error "index out of range"
    else .ok rawUrl
  else .ok rawUrl

/-- One round of the loop `for key, values := range tempHeaders` of
`parseHeaders`: `if len(values) > 0 { headers[key] = values[0] }`. -/
def headerStep (headers : GoMap String) (entry : String × List String) : GoMap String :=
  if entry.2.length > 0 then headers.store entry.1 (entry.2.getD 0 "") else headers

/-- The method `parseHeaders` (lines 170-188), given `json.Unmarshal` into a
`map[string][]string`; a decoded map is given by its entries in the order
the `range` loop visits them.  The result is the Go pair
`(map[string]string, error)`. -/
def parseHeaders (jsonUnmarshal : String → Except String (List (String × List String)))
    (mediaInfo : MediaInfo) : GoMap String × Option String :=
  let headers : GoMap String := GoMap.empty
  match mediaInfo.OtherData "headers" with
  | some hh =>
    match jsonUnmarshal hh with
    | .error err => (headers, some ("parse headers JSON err: " ++ err))
    | .ok tempHeaders =>
      (tempHeaders.foldl headerStep headers, none)
  | none => (headers, none)

/-- What one run of the transfer collaborator (`NewFileDownloader` and
`downloader.Start()`, in another file of the package) does: the values
`int(totalDownloaded)` of the successive calls of `progressCallback`, all
made before `Start` returns, the error `Start` returns, and the file system
it leaves. -/
structure TransferOutcome where
  progress : List Int
  err : Option String
  fs : FileSystem

/-- The functions `download` calls that are not defined in `resource.go`. -/
structure Platform where
  /-- The function `base64.StdEncoding.DecodeString`. -/
  base64Decode : String → Except String (List Nat)
  /-- The function `json.Unmarshal` into a `map[string][]string`. -/
  jsonUnmarshal : String → Except String (List (String × List String))
  /-- The function `url.Parse`. -/
  urlParse : String → Except String URL
  /-- The function `url.ParseQuery`, as the method `Query` uses it. -/
  parseQuery : String → GoMap (List String)
  /-- The function `filepath.Join` of two elements. -/
  pathJoin : String → String → String
  /-- The function `Md5` of the package. -/
  md5 : String → String
  /-- The string `GetCurrentDateTimeFormatted()` returns during the task. -/
  now : String
  /-- The transfer of `(url, path, taskNumber, headers)` on a file system. -/
  transfer : String → String → Int → GoMap String → FileSystem → TransferOutcome

/-- The closure assigned to `downloader.progressCallback` (lines 150-152),
applied to the value `int(totalDownloaded)`: the payload it sends. -/
def progressCallback (mediaInfo : MediaInfo) (totalDownloaded : Int) : Event :=
  progressEventsEmit mediaInfo [toString totalDownloaded ++ "%", DownloadStatusRunning]

/-- Lines 149-166: the transfer and the post-processing.  The result is the
sequence of payloads sent, in order, and the file system after the task. -/
def transferAndDecode (p : Platform) (cfg : Config) (fs : FileSystem)
    (mediaInfo : MediaInfo) (rawUrl : String) (headers : GoMap String)
    (decodeStr : String) : List Event × FileSystem :=
  let out := p.transfer rawUrl mediaInfo.SavePath cfg.TaskNumber headers fs
  let sent := out.progress.map (progressCallback mediaInfo)
  match out.err with
  | some err => (sent ++ [progressEventsEmit mediaInfo [err]], out.fs)
  | none =>
    if decodeStr ≠ "" then
      let sent := sent ++ [progressEventsEmit mediaInfo ["解密中", DownloadStatusRunning]]
      match decodeWxFile p.base64Decode out.fs mediaInfo.SavePath decodeStr with
      | (fs1, some err) => (sent ++ [progressEventsEmit mediaInfo ["解密出错" ++ err]], fs1)
      | (fs1, none) => (sent ++ [progressEventsEmit mediaInfo ["完成", DownloadStatusDone]], fs1)
    else (sent ++ [progressEventsEmit mediaInfo ["完成", DownloadStatusDone]], out.fs)

/-- How a call of `download` ends. -/
inductive TaskResult where
  /-- No goroutine is started: `SaveDirectory` is empty. -/
  | notStarted
  /-- The goroutine panics before the transfer starts. -/
  | panicked (msg : String)
  /-- The goroutine returns: the payloads sent and the file system left. -/
  | finished (events : List Event) (fs : FileSystem)

/-- The method `download` (lines 99-167) as one sequential run of its
goroutine. -/
def download (p : Platform) (cfg : Config) (fs : FileSystem)
    (mediaInfo : MediaInfo) (decodeStr : String) : TaskResult :=
  if cfg.SaveDirectory = "" then .notStarted
  else
    let fileName := fileNameOf p.md5 cfg mediaInfo
    let mediaInfo := { mediaInfo with SavePath := savePathOf p.pathJoin p.now cfg mediaInfo fileName }
    match negotiateUrl p.urlParse p.parseQuery cfg mediaInfo with
    | .error msg => .panicked msg
    | .ok rawUrl =>
      let headers := (parseHeaders p.jsonUnmarshal mediaInfo).1
      let r := transferAndDecode p cfg fs mediaInfo rawUrl headers decodeStr
      .finished r.1 r.2

/-! ## A reference platform

Reference versions of the library functions, used to run the code above on
concrete inputs.  The theorems that quantify over a platform do not depend
on them. -/

/-- The value of a character of the standard base64 alphabet. -/
def base64Index (c : Char) : Option Nat :=
  if 'A' ≤ c ∧ c ≤ 'Z' then some (c.toNat - 65)
  else if 'a' ≤ c ∧ c ≤ 'z' then some (c.toNat - 97 + 26)
  else if '0' ≤ c ∧ c ≤ '9' then some (c.toNat - 48 + 52)
  else if c = '+' then some 62
  else if c = '/' then some 63
  else none

/-- Padded base64 decoding, four characters at a time. -/
def base64Quads : List Char → Except String (List Nat)
  | [] => .ok []
  | a :: b :: c :: d :: rest =>
    match base64Index a, base64Index b with
    | some x, some y =>
      if c = '=' ∧ d = '=' then
        if rest = [] then .ok [x * 4 + y / 16] else .error "illegal base64 data"
      else
        match base64Index c with
        | none => .error "illegal base64 data"
        | some z =>
          if d = '=' then
            if rest = [] then .ok [x * 4 + y / 16, y % 16 * 16 + z / 4]
            else .error "illegal base64 data"
          else
            match base64Index d with
            | none => .error "illegal base64 data"
            | some w =>
              match base64Quads rest with
              | .ok t => .ok ([x * 4 + y / 16, y % 16 * 16 + z / 4, z % 4 * 64 + w] ++ t)
              | .error e => .error e
    | _, _ => .error "illegal base64 data"
  | _ => .error "illegal base64 data"

/-- Reference `base64.StdEncoding.DecodeString`: standard alphabet, padding
required, carriage returns and line feeds ignored. -/
def refBase64Decode (s : String) : Except String (List Nat) :=
  base64Quads (s.data.filter fun c => c ≠ '\r' ∧ c ≠ '\n')

/-- The call `strings.Cut(s, sep)` for a separator of one character: the
text before the first `sep` and, when `sep` occurs, the text after it. -/
def cutChar (sep : Char) : List Char → List Char × Option (List Char)
  | [] => ([], none)
  | c :: cs =>
    if c = sep then ([], some cs)
    else ((c :: (cutChar sep cs).1), (cutChar sep cs).2)

/-- The scan of `getScheme` in `net/url`: `none` when the text has no
scheme, else the scheme and the text after its colon; `first` tells whether
the scan is at index 0. -/
def schemeScan : Bool → List Char → Except String (Option (List Char × List Char))
  | _, [] => .ok none
  | first, c :: cs =>
    if c.isAlpha then
      match schemeScan false cs with
      | .ok (some r) => .ok (some (c :: r.1, r.2))
      | other => other
    else if c.isDigit ∨ c = '+' ∨ c = '-' ∨ c = '.' then
      if first then .ok none
      else
        match schemeScan false cs with
        | .ok (some r) => .ok (some (c :: r.1, r.2))
        | other => other
    else if c = ':' then
      if first then .error "missing protocol scheme" else .ok (some ([], cs))
    else .ok none

/-- The characters the reference `url.Parse` accepts in an authority and in
a path: those that `net/url` copies as they are. -/
def plainUrlChar (c : Char) : Bool :=
  c.isAlphanum || c = '.' || c = '-' || c = '_' || c = '~' || c = '/'

/-- Reference `url.Parse` for URLs of the shape
`scheme://host/path?query#fragment` whose host and path consist of letters,
digits and `. - _ ~ /`; on these it returns what `net/url` returns.  Other
inputs (user info, ports, bracketed hosts, percent escapes, opaque and
relative forms) are outside the reference and reported as errors. -/
def refUrlParse (rawURL : String) : Except String URL :=
  let u := (cutChar '#' rawURL.data).1
  if u.any (fun c => c.toNat < 0x20 ∨ c.toNat = 0x7f) then
    .error "net/url: invalid control character in URL"
  else if u = [] then .error "empty url"
  else
    match schemeScan true u with
    | .error e => .error e
    | .ok none => .error "outside the reference: no scheme"
    | .ok (some (scheme, afterScheme)) =>
      let scheme := scheme.map Char.toLower
      let restAndQuery : List Char × List Char :=
        if afterScheme.getLast? = some '?' ∧ afterScheme.count '?' = 1 then
          (afterScheme.dropLast, [])
        else ((cutChar '?' afterScheme).1, ((cutChar '?' afterScheme).2).getD [])
      match restAndQuery.1 with
      | '/' :: '/' :: authorityAndPath =>
        let authority := (cutChar '/' authorityAndPath).1
        let path := authorityAndPath.drop authority.length
        if authority.all plainUrlChar ∧ path.all plainUrlChar then
          .ok { Scheme := String.mk scheme, Host := String.mk authority,
                Path := String.mk path, RawQuery := String.mk restAndQuery.2 }
        else .error "outside the reference: escaped or structured authority or path"
      | _ => .error "outside the reference: no authority"

/-- The value of a hexadecimal digit. -/
def hexValue (c : Char) : Option Nat :=
  if '0' ≤ c ∧ c ≤ '9' then some (c.toNat - 48)
  else if 'a' ≤ c ∧ c ≤ 'f' then some (c.toNat - 87)
  else if 'A' ≤ c ∧ c ≤ 'F' then some (c.toNat - 55)
  else none

/-- Reference `url.QueryUnescape`: `+` becomes a space and `%XX` the
character of code `XX`; `none` for a malformed escape, and for an escape of
a non-ASCII byte, which is outside the reference. -/
def refQueryUnescape : List Char → Option (List Char)
  | [] => some []
  | c :: cs =>
    if c = '%' then
      match cs with
      | h :: l :: rest =>
        match hexValue h, hexValue l, refQueryUnescape rest with
        | some x, some y, some t =>
          if x * 16 + y < 128 then some (Char.ofNat (x * 16 + y) :: t) else none
        | _, _, _ => none
      | _ => none
    else
      match refQueryUnescape cs with
      | some t => some ((if c = '+' then ' ' else c) :: t)
      | none => none

/-- One round of the loop of `url.ParseQuery` on the segment `key`. -/
def refParseQueryStep (m : GoMap (List String)) (segment : List Char) : GoMap (List String) :=
  if segment.contains ';' then m
  else if segment = [] then m
  else
    match refQueryUnescape (cutChar '=' segment).1,
        refQueryUnescape (((cutChar '=' segment).2).getD []) with
    | some key, some value =>
      m.store (String.mk key) ((m (String.mk key)).getD [] ++ [String.mk value])
    | _, _ => m

/-- Reference `url.ParseQuery` (its error is dropped, as `Query` does). -/
def refParseQuery (query : String) : GoMap (List String) :=
  (splitChars '&' query.data).foldl refParseQueryStep GoMap.empty

/-- The text after leading JSON white space. -/
def jsonWs (s : List Char) : List Char :=
  s.dropWhile fun c => c = ' ' ∨ c = '\t' ∨ c = '\n' ∨ c = '\r'

/-- The character a two-character JSON escape stands for (`\u` escapes are
outside the reference). -/
def jsonEscape (c : Char) : Option Char :=
  if c = Char.ofNat 34 then some (Char.ofNat 34)
  else if c = Char.ofNat 92 then some (Char.ofNat 92)
  else if c = '/' then some '/'
  else if c = 'b' then some (Char.ofNat 8)
  else if c = 'f' then some (Char.ofNat 12)
  else if c = 'n' then some '\n'
  else if c = 'r' then some '\r'
  else if c = 't' then some '\t'
  else none

/-- A JSON string after its opening quote: its value and the text after the
closing quote. -/
def jsonString : List Char → Option (List Char × List Char)
  | [] => none
  | c :: rest =>
    if c = Char.ofNat 34 then some ([], rest)
    else if c = Char.ofNat 92 then
      match rest with
      | e :: rest2 =>
        match jsonEscape e, jsonString rest2 with
        | some x, some r => some (x :: r.1, r.2)
        | _, _ => none
      | [] => none
    else if c.toNat < 0x20 then none
    else
      match jsonString rest with
      | some r => some (c :: r.1, r.2)
      | none => none

/-- The rest of a JSON array of strings after one of its elements. -/
def jsonArrayTail : Nat → List Char → Option (List String × List Char)
  | 0, _ => none
  | fuel + 1, s =>
    match jsonWs s with
    | c :: rest =>
      if c = ']' then some ([], rest)
      else if c = ',' then
        match jsonWs rest with
        | q :: rest2 =>
          if q = Char.ofNat 34 then
            match jsonString rest2 with
            | some (str, rest3) =>
              match jsonArrayTail fuel rest3 with
              | some r => some (String.mk str :: r.1, r.2)
              | none => none
            | none => none
          else none
        | [] => none
      else none
    | [] => none

/-- A JSON array of strings: its elements and the text after it. -/
def jsonArray (s : List Char) : Option (List String × List Char) :=
  match jsonWs s with
  | b :: rest =>
    if b = '[' then
      match jsonWs rest with
      | c :: rest2 =>
        if c = ']' then some ([], rest2)
        else if c = Char.ofNat 34 then
          match jsonString rest2 with
          | some (str, rest3) =>
            match jsonArrayTail (rest3.length + 1) rest3 with
            | some r => some (String.mk str :: r.1, r.2)
            | none => none
          | none => none
        else none
      | [] => none
    else none
  | [] => none

/-- One member `"name": [ ... ]` of a JSON object. -/
def jsonMember (s : List Char) : Option ((String × List String) × List Char) :=
  match jsonWs s with
  | q :: rest =>
    if q = Char.ofNat 34 then
      match jsonString rest with
      | some (name, rest2) =>
        match jsonWs rest2 with
        | c :: rest3 =>
          if c = ':' then
            match jsonArray rest3 with
            | some (values, rest4) => some ((String.mk name, values), rest4)
            | none => none
          else none
        | [] => none
      | none => none
    else none
  | [] => none

/-- The rest of a JSON object after one of its members. -/
def jsonObjectTail : Nat → List Char → Option (List (String × List String) × List Char)
  | 0, _ => none
  | fuel + 1, s =>
    match jsonWs s with
    | c :: rest =>
      if c = '}' then some ([], rest)
      else if c = ',' then
        match jsonMember rest with
        | some (m, rest2) =>
          match jsonObjectTail fuel rest2 with
          | some r => some (m :: r.1, r.2)
          | none => none
        | none => none
      else none
    | [] => none

/-- The members of a JSON object of string arrays, in textual order. -/
def jsonObject (s : List Char) : Option (List (String × List String) × List Char) :=
  match jsonWs s with
  | b :: rest =>
    if b = '{' then
      match jsonWs rest with
      | c :: rest2 =>
        if c = '}' then some ([], rest2)
        else
          match jsonMember rest with
          | some (m, rest3) =>
            match jsonObjectTail (rest3.length + 1) rest3 with
            | some r => some (m :: r.1, r.2)
            | none => none
          | none => none
      | [] => none
    else none
  | [] => none

/-- The entries of the map a member list decodes to: a repeated name keeps
its last value. -/
def jsonEntries : List (String × List String) → List (String × List String)
  | [] => []
  | m :: rest =>
    if (rest.map Prod.fst).contains m.1 then jsonEntries rest else m :: jsonEntries rest

/-- Reference `json.Unmarshal` into a `map[string][]string` for a JSON
object whose values are arrays of strings without `\u` escapes; on these
it yields the entries of the decoded map.  Other inputs (among them `null`
and values of other types) are outside the reference and reported as
errors. -/
def refJsonUnmarshal (data : String) : Except String (List (String × List String)) :=
  match jsonObject data.data with
  | some (members, rest) =>
    if jsonWs rest = [] then .ok (jsonEntries members)
    else .error "invalid character after top-level value"
  | none => .error "cannot unmarshal into Go value of type map[string][]string"

/-- The reference platform, for a given hash function, clock reading and
transfer collaborator.  Its `pathJoin` is `filepath.Join` on a clean
directory and a file name without separators. -/
def refPlatform (md5 : String → String) (now : String)
    (transfer : String → String → Int → GoMap String → FileSystem → TransferOutcome) :
    Platform :=
  { base64Decode := refBase64Decode
    jsonUnmarshal := refJsonUnmarshal
    urlParse := refUrlParse
    parseQuery := refParseQuery
    pathJoin := fun dir name => dir ++ "/" ++ name
    md5 := md5
    now := now
    transfer := transfer }

/-! ## Sample inputs -/

/-- A file system with two files. -/
def sampleFiles : FileSystem := fun p =>
  if p = "clip.mp4" then some [10, 20, 30, 40]
  else if p = "clip.mov" then some [10, 20, 30]
  else none

/-- The configuration of the samples: quality tier 1. -/
def sampleConfig : Config :=
  { SaveDirectory := "/downloads", FilenameLen := 10, FilenameTime := false,
    TaskNumber := 4, Quality := 1 }

/-- A resource on the content host whose query carries `encfilekey` and
`token` among other parameters. -/
def sampleKeyedInfo : MediaInfo :=
  { Id := "1", Url := "https://x.qq.com/a?foo=1&encfilekey=K&token=T&bar=2",
    Description := "", Suffix := ".mp4", SavePath := "", OtherData := GoMap.empty }

/-- A resource on the content host with three alternate formats. -/
def sampleFormatsInfo : MediaInfo :=
  { Id := "2", Url := "https://x.qq.com/a", Description := "", Suffix := ".mp4",
    SavePath := "", OtherData := GoMap.empty.store "wx_file_formats" "a#b#c" }

/-- A resource with a description. -/
def sampleDescribedInfo : MediaInfo :=
  { Id := "3", Url := "https://example.com/v", Description := "视频标题ABC!!@@测试更多文字",
    Suffix := ".mp4", SavePath := "", OtherData := GoMap.empty }

/-- A resource with a `headers` entry. -/
def sampleHeaderInfo : MediaInfo :=
  { Id := "4", Url := "https://example.com/v", Description := "", Suffix := ".mp4",
    SavePath := "", OtherData := GoMap.empty.store "headers" "\x7b\"X\":[\"a\",\"b\"]\x7d" }

/-- The payloads a task has sent, when it returned. -/
def TaskResult.events : TaskResult → Option (List Event)
  | .finished events _ => some events
  | _ => none

/-- The panic message of a task, when it panicked. -/
def TaskResult.panic : TaskResult → Option String
  | .panicked msg => some msg
  | _ => none

/-- A transfer that reports 50 and 100 percent, stores four bytes at the
destination and returns no error. -/
def sampleTransfer (_url path : String) (_taskNumber : Int) (_headers : GoMap String)
    (fs : FileSystem) : TransferOutcome :=
  { progress := [50, 100], err := none, fs := fs.put path [10, 20, 30, 40] }

/-- The reference platform around `sampleTransfer`; the hash function
returns the fixed stem `hash`. -/
def samplePlatform : Platform :=
  refPlatform (fun _ => "hash") "20240101" sampleTransfer

/-- A resource whose description has no word character and no Han
ideograph. -/
def sampleSymbolsInfo : MediaInfo :=
  { Id := "5", Url := "https://example.com/one", Description := "!!@@", Suffix := ".mp4",
    SavePath := "", OtherData := GoMap.empty }

/-- A resource whose `headers` entry starts as a well-formed object and then
holds a number where an array of strings is expected. -/
def sampleBrokenHeaderInfo : MediaInfo :=
  { Id := "6", Url := "https://example.com/v", Description := "", Suffix := ".mp4",
    SavePath := "",
    OtherData := GoMap.empty.store "headers" "\x7b\"X\":[\"a\"],\"Y\":5\x7d" }

/-! # Theorems -/

/-! ## The registry -/

theorem GoMap.foldl_store_true (L : List String) (m : GoMap Bool) (k : String) :
    (L.foldl (fun m value => m.store value true) m) k = if k ∈ L then some true else m k := by
  induction L generalizing m with
  | nil => simp
  | cons a t ih =>
    rw [List.foldl_cons, ih]
    by_cases hk : k ∈ t
    · simp [hk]
    · by_cases ha : k = a
      · simp [hk, ha, GoMap.store]
      · simp [hk, ha, GoMap.store]

theorem resetFilter_known (c : String) (hc : c ∈ knownResTypes) :
    GoMap.ofList (knownResTypes.map fun c => (c, false)) c = some false := by
  simp only [knownResTypes, List.mem_cons, List.mem_singleton, List.not_mem_nil, or_false] at hc
  rcases hc with h | h | h | h | h | h | h | h | h <;> subst h <;> decide

/-- C3: after `setResType L` on any registry, `getResType c` of a known
category `c` is `(true, true)` when `c` is in `L` and `(false, true)`
otherwise. -/
theorem setResType_getResType_known (r : Resource) (L : List String) (c : String)
    (hc : c ∈ knownResTypes) :
    getResType (setResType r L) c = if c ∈ L then (true, true) else (false, true) := by
  unfold getResType setResType
  simp only [GoMap.foldl_store_true, resetFilter_known c hc]
  split_ifs <;> rfl

theorem setResType_getResType_known_witness :
    "video" ∈ knownResTypes ∧
    getResType (setResType initResource ["video", "zip"]) "video"
      = if "video" ∈ ["video", "zip"] then (true, true) else (false, true) :=
  ⟨by decide, setResType_getResType_known initResource ["video", "zip"] "video" (by decide)⟩

/-- C4: on every registry, a signature is marked right after `markMedia`, is
not marked right after `delete`, and no signature at all is marked after
`clear`. -/
theorem mediaMark_laws :
    (∀ (r : Resource) (s : String), mediaIsMarked (markMedia r s) s = true) ∧
    (∀ (r : Resource) (s : String), mediaIsMarked (delete r s) s = false) ∧
    (∀ (r : Resource) (t : String), mediaIsMarked (clear r) t = false) := by
  refine ⟨fun r s => ?_, fun r s => ?_, fun r t => ?_⟩
  · simp [mediaIsMarked, markMedia, GoMap.store]
  · simp [mediaIsMarked, delete, GoMap.erase]
  · simp [mediaIsMarked, clear, GoMap.empty]

/-! ## The decoder -/

theorem xorLoop_length (n : Nat) (a b : List Nat) : (xorLoop n a b).length = n := by
  simp [xorLoop]

theorem xorLoop_getElem? (n : Nat) (a b : List Nat) (i : Nat) (hi : i < n) :
    (xorLoop n a b)[i]? = some (a.getD i 0 ^^^ b.getD i 0) := by
  simp [xorLoop, List.getElem?_map, List.getElem?_range hi]

theorem readIntoZeroed_length (B : List Nat) (n : Nat) : (readIntoZeroed B n).length = n := by
  simp [readIntoZeroed]; omega

theorem readIntoZeroed_getD (B : List Nat) (n i : Nat) (hi : i < n) :
    (readIntoZeroed B n).getD i 0 = B.getD i 0 := by
  unfold readIntoZeroed
  rw [List.getD_eq_getElem?_getD, List.getD_eq_getElem?_getD]
  by_cases h : i < B.length
  · rw [List.getElem?_append_left (by simp; omega)]
    simp [List.getElem?_take, hi]
  · rw [List.getElem?_append_right (by simp; omega)]
    have : B[i]? = none := List.getElem?_eq_none (by omega)
    rw [this]
    simp

theorem decodeWxFile_eq (b64 : String → Except String (List Nat)) (fs : FileSystem)
    (fileName decodeStr : String) (key B : List Nat)
    (hkey : b64 decodeStr = .ok key) (hfile : fs fileName = some B) :
    decodeWxFile b64 fs fileName decodeStr =
      (fs.put fileName
        (xorLoop key.length key (readIntoZeroed B key.length) ++ B.drop key.length), none) := by
  simp [decodeWxFile, hkey, hfile, writeAtStart, xorLoop_length]


theorem decoded_getElem?_lt (key B : List Nat) (i : Nat) (hi : i < key.length) :
    (xorLoop key.length key (readIntoZeroed B key.length) ++ B.drop key.length)[i]? =
      some (key.getD i 0 ^^^ B.getD i 0) := by
  rw [List.getElem?_append_left (by rw [xorLoop_length]; exact hi),
    xorLoop_getElem? _ _ _ _ hi, readIntoZeroed_getD _ _ _ hi]

theorem decoded_getElem?_ge (key B : List Nat) (i : Nat) (hi : key.length ≤ i) :
    (xorLoop key.length key (readIntoZeroed B key.length) ++ B.drop key.length)[i]? = B[i]? := by
  rw [List.getElem?_append_right (by rw [xorLoop_length]; exact hi), xorLoop_length,
    List.getElem?_drop]
  congr 1
  omega

theorem decoded_length (key B : List Nat) (h : key.length ≤ B.length) :
    (xorLoop key.length key (readIntoZeroed B key.length) ++ B.drop key.length).length =
      B.length := by
  simp [xorLoop_length]
  omega

/-- C2: when the key decodes to `K` bytes and the file holds `n ≥ K` bytes,
`decodeWxFile` succeeds, the file keeps its length `n`, byte `i < K` becomes
`key[i] XOR B[i]` and every byte at `i ≥ K` is unchanged. -/
theorem decodeWxFile_spec (b64 : String → Except String (List Nat)) (fs : FileSystem)
    (fileName decodeStr : String) (key B : List Nat)
    (hkey : b64 decodeStr = .ok key) (hfile : fs fileName = some B)
    (hlen : key.length ≤ B.length) :
    (decodeWxFile b64 fs fileName decodeStr).2 = none ∧
    ∃ B1 : List Nat, (decodeWxFile b64 fs fileName decodeStr).1 fileName = some B1 ∧
      B1.length = B.length ∧
      (∀ i, i < key.length → B1[i]? = some (key.getD i 0 ^^^ B.getD i 0)) ∧
      (∀ i, key.length ≤ i → B1[i]? = B[i]?) := by
  rw [decodeWxFile_eq b64 fs fileName decodeStr key B hkey hfile]
  refine ⟨rfl, _, by simp [FileSystem.put], decoded_length key B hlen,
    fun i hi => decoded_getElem?_lt key B i hi, fun i hi => decoded_getElem?_ge key B i hi⟩

theorem decoded_twice (key B : List Nat) (h : key.length ≤ B.length) :
    xorLoop key.length key
        (readIntoZeroed
          (xorLoop key.length key (readIntoZeroed B key.length) ++ B.drop key.length)
          key.length) ++
      (xorLoop key.length key (readIntoZeroed B key.length) ++ B.drop key.length).drop
        key.length = B := by
  apply List.ext_getElem?
  intro i
  by_cases hi : i < key.length
  · rw [decoded_getElem?_lt _ _ _ hi]
    have h1 := decoded_getElem?_lt key B i hi
    have hB : B[i]? = some (B.getD i 0) := by
      rw [List.getD_eq_getElem?_getD, List.getElem?_eq_getElem (by omega)]
      simp
    rw [List.getD_eq_getElem?_getD
      (xorLoop key.length key (readIntoZeroed B key.length) ++ B.drop key.length), h1, hB]
    simp only [Option.getD_some]
    rw [← Nat.xor_assoc, Nat.xor_self, Nat.zero_xor]
  · have hi : key.length ≤ i := by omega
    rw [decoded_getElem?_ge _ _ _ hi, decoded_getElem?_ge _ _ _ hi]

theorem decodeWxFile_spec_witness :
    refBase64Decode "AQID" = .ok [1, 2, 3] ∧
    sampleFiles "clip.mp4" = some [10, 20, 30, 40] ∧
    (decodeWxFile refBase64Decode sampleFiles "clip.mp4" "AQID").2 = none ∧
    (decodeWxFile refBase64Decode sampleFiles "clip.mp4" "AQID").1 "clip.mp4" =
      some [11, 22, 29, 40] :=
  ⟨by decide, by decide,
    (decodeWxFile_spec refBase64Decode sampleFiles "clip.mp4" "AQID" [1, 2, 3] [10, 20, 30, 40]
      (by decide) (by decide) (by decide)).1,
    by decide⟩

/-- C1: when the key decodes to `K` bytes and the file holds at least `K`
bytes, two successive calls of `decodeWxFile` with the same key both succeed
and leave the file with its original content (and the whole file system as
it was). -/
theorem decodeWxFile_involution (b64 : String → Except String (List Nat)) (fs : FileSystem)
    (fileName decodeStr : String) (key B : List Nat)
    (hkey : b64 decodeStr = .ok key) (hfile : fs fileName = some B)
    (hlen : key.length ≤ B.length) :
    (decodeWxFile b64 fs fileName decodeStr).2 = none ∧
    (decodeWxFile b64 (decodeWxFile b64 fs fileName decodeStr).1 fileName decodeStr).2 = none ∧
    (decodeWxFile b64 (decodeWxFile b64 fs fileName decodeStr).1 fileName decodeStr).1 fileName
      = some B ∧
    (decodeWxFile b64 (decodeWxFile b64 fs fileName decodeStr).1 fileName decodeStr).1 = fs := by
  have h1 := decodeWxFile_eq b64 fs fileName decodeStr key B hkey hfile
  have h2 := decodeWxFile_eq b64
    (fs.put fileName (xorLoop key.length key (readIntoZeroed B key.length) ++ B.drop key.length))
    fileName decodeStr key
    (xorLoop key.length key (readIntoZeroed B key.length) ++ B.drop key.length) hkey
    (by simp [FileSystem.put])
  rw [decoded_twice key B hlen] at h2
  rw [h1]
  dsimp only
  rw [h2]
  refine ⟨rfl, rfl, by simp [FileSystem.put], ?_⟩
  funext p
  by_cases hp : p = fileName
  · simp [FileSystem.put, hp, hfile]
  · simp [FileSystem.put, hp]

theorem decodeWxFile_involution_witness :
    refBase64Decode "AQID" = .ok [1, 2, 3] ∧
    sampleFiles "clip.mp4" = some [10, 20, 30, 40] ∧
    (decodeWxFile refBase64Decode
      (decodeWxFile refBase64Decode sampleFiles "clip.mp4" "AQID").1 "clip.mp4" "AQID").1
      "clip.mp4" = some [10, 20, 30, 40] :=
  ⟨by decide, by decide,
    (decodeWxFile_involution refBase64Decode sampleFiles "clip.mp4" "AQID" [1, 2, 3]
      [10, 20, 30, 40] (by decide) (by decide) (by decide)).2.2.1⟩

/-- C7, at a source path without `.mp4`: `sampleFiles` holds `[10, 20, 30]`
at `clip.mov`; `wxFileDecode` with the key bytes `[1, 2, 3]` returns the
source path itself as the new path, with no error, and the source file then
holds the key bytes. -/
theorem wxFileDecode_overwrites_source :
    sampleFiles "clip.mov" = some [10, 20, 30] ∧
    refBase64Decode "AQID" = .ok [1, 2, 3] ∧
    (wxFileDecode refBase64Decode sampleFiles "clip.mov" "AQID").2 = .ok "clip.mov" ∧
    (wxFileDecode refBase64Decode sampleFiles "clip.mov" "AQID").1 "clip.mov" =
      some [1, 2, 3] := by
  refine ⟨by decide, by decide, by decide, by decide⟩

/-! ## The events of a task -/

theorem progressEventsEmit_two (mi : MediaInfo) (msg status : String) :
    (progressEventsEmit mi [msg, status]).Status = status := by
  simp [progressEventsEmit]

theorem progressEventsEmit_one (mi : MediaInfo) (msg : String) :
    (progressEventsEmit mi [msg]).Status = DownloadStatusError := by
  simp [progressEventsEmit]

theorem progressEvents_running (mediaInfo : MediaInfo) (out : TransferOutcome) :
    ∀ e ∈ out.progress.map (progressCallback mediaInfo), e.Status = DownloadStatusRunning := by
  intro e he
  rw [List.mem_map] at he
  obtain ⟨x, _, rfl⟩ := he
  exact progressEventsEmit_two _ _ _

theorem transferAndDecode_transfer_failed (p : Platform) (cfg : Config) (fs : FileSystem)
    (mediaInfo : MediaInfo) (rawUrl : String) (headers : GoMap String) (decodeStr err : String)
    (h : (p.transfer rawUrl mediaInfo.SavePath cfg.TaskNumber headers fs).err = some err) :
    (transferAndDecode p cfg fs mediaInfo rawUrl headers decodeStr).1 =
      (p.transfer rawUrl mediaInfo.SavePath cfg.TaskNumber headers fs).progress.map
        (progressCallback mediaInfo)
        ++ [progressEventsEmit mediaInfo [err]] := by
  simp [transferAndDecode, h]

theorem transferAndDecode_no_key (p : Platform) (cfg : Config) (fs : FileSystem)
    (mediaInfo : MediaInfo) (rawUrl : String) (headers : GoMap String)
    (h : (p.transfer rawUrl mediaInfo.SavePath cfg.TaskNumber headers fs).err = none) :
    (transferAndDecode p cfg fs mediaInfo rawUrl headers "").1 =
      (p.transfer rawUrl mediaInfo.SavePath cfg.TaskNumber headers fs).progress.map
        (progressCallback mediaInfo)
        ++ [progressEventsEmit mediaInfo ["完成", DownloadStatusDone]] := by
  simp [transferAndDecode, h]

theorem transferAndDecode_decode_failed (p : Platform) (cfg : Config) (fs : FileSystem)
    (mediaInfo : MediaInfo) (rawUrl : String) (headers : GoMap String) (decodeStr err : String)
    (h : (p.transfer rawUrl mediaInfo.SavePath cfg.TaskNumber headers fs).err = none)
    (hd : decodeStr ≠ "")
    (hdec : (decodeWxFile p.base64Decode
      (p.transfer rawUrl mediaInfo.SavePath cfg.TaskNumber headers fs).fs
      mediaInfo.SavePath decodeStr).2 = some err) :
    (transferAndDecode p cfg fs mediaInfo rawUrl headers decodeStr).1 =
      ((p.transfer rawUrl mediaInfo.SavePath cfg.TaskNumber headers fs).progress.map
        (progressCallback mediaInfo)
        ++ [progressEventsEmit mediaInfo ["解密中", DownloadStatusRunning]])
        ++ [progressEventsEmit mediaInfo ["解密出错" ++ err]] := by
  unfold transferAndDecode
  simp only [h, ne_eq, hd, not_false_eq_true, if_true]
  split
  · next fs1 e heq => rw [heq] at hdec; simp at hdec; rw [hdec]
  · next fs1 heq => rw [heq] at hdec; simp at hdec

theorem transferAndDecode_decoded (p : Platform) (cfg : Config) (fs : FileSystem)
    (mediaInfo : MediaInfo) (rawUrl : String) (headers : GoMap String) (decodeStr : String)
    (h : (p.transfer rawUrl mediaInfo.SavePath cfg.TaskNumber headers fs).err = none)
    (hd : decodeStr ≠ "")
    (hdec : (decodeWxFile p.base64Decode
      (p.transfer rawUrl mediaInfo.SavePath cfg.TaskNumber headers fs).fs
      mediaInfo.SavePath decodeStr).2 = none) :
    (transferAndDecode p cfg fs mediaInfo rawUrl headers decodeStr).1 =
      ((p.transfer rawUrl mediaInfo.SavePath cfg.TaskNumber headers fs).progress.map
        (progressCallback mediaInfo)
        ++ [progressEventsEmit mediaInfo ["解密中", DownloadStatusRunning]])
        ++ [progressEventsEmit mediaInfo ["完成", DownloadStatusDone]] := by
  unfold transferAndDecode
  simp only [h, ne_eq, hd, not_false_eq_true, if_true]
  split
  · next fs1 e heq => rw [heq] at hdec; simp at hdec
  · next fs1 heq => rfl

theorem running_with_decrypting (mediaInfo : MediaInfo) (out : TransferOutcome) :
    ∀ e ∈ out.progress.map (progressCallback mediaInfo) ++
        [progressEventsEmit mediaInfo ["解密中", DownloadStatusRunning]],
      e.Status = DownloadStatusRunning := by
  intro e he
  rw [List.mem_append] at he
  rcases he with he | he
  · exact progressEvents_running _ _ e he
  · rw [List.mem_singleton] at he
    rw [he]; exact progressEventsEmit_two _ _ _

/-- C8: whatever the transfer and the decoder do, the payloads sent by the
transfer and post-processing part of a download task are a run of `running`
payloads followed by one last payload whose status is `done` or `error`,
and it is `done` exactly when the transfer returned no error and either no
decode key was given or `decodeWxFile` returned no error. -/
theorem transferAndDecode_events (p : Platform) (cfg : Config) (fs : FileSystem)
    (mediaInfo : MediaInfo) (rawUrl : String) (headers : GoMap String) (decodeStr : String) :
    ∃ (running : List Event) (terminal : Event),
      (transferAndDecode p cfg fs mediaInfo rawUrl headers decodeStr).1 = running ++ [terminal] ∧
      (∀ e ∈ running, e.Status = DownloadStatusRunning) ∧
      (terminal.Status = DownloadStatusDone ∨ terminal.Status = DownloadStatusError) ∧
      (terminal.Status = DownloadStatusDone ↔
        (p.transfer rawUrl mediaInfo.SavePath cfg.TaskNumber headers fs).err = none ∧
        (decodeStr = "" ∨
          (decodeWxFile p.base64Decode
            (p.transfer rawUrl mediaInfo.SavePath cfg.TaskNumber headers fs).fs
            mediaInfo.SavePath decodeStr).2 = none)) := by
  have hne : DownloadStatusError ≠ DownloadStatusDone := by decide
  cases herr : (p.transfer rawUrl mediaInfo.SavePath cfg.TaskNumber headers fs).err with
  | some err =>
    refine ⟨_, _, transferAndDecode_transfer_failed p cfg fs mediaInfo rawUrl headers decodeStr
      err herr, progressEvents_running _ _, Or.inr (progressEventsEmit_one _ _), ?_⟩
    rw [progressEventsEmit_one]
    simp [hne]
  | none =>
    by_cases hd : decodeStr = ""
    · subst hd
      refine ⟨_, _, transferAndDecode_no_key p cfg fs mediaInfo rawUrl headers herr,
        progressEvents_running _ _, Or.inl (progressEventsEmit_two _ _ _), ?_⟩
      simp [progressEventsEmit_two]
    · cases hdec : (decodeWxFile p.base64Decode
          (p.transfer rawUrl mediaInfo.SavePath cfg.TaskNumber headers fs).fs
          mediaInfo.SavePath decodeStr).2 with
      | some err =>
        refine ⟨_, _, transferAndDecode_decode_failed p cfg fs mediaInfo rawUrl headers
          decodeStr err herr hd hdec, running_with_decrypting _ _,
          Or.inr (progressEventsEmit_one _ _), ?_⟩
        rw [progressEventsEmit_one]
        simp [hne, hd]
      | none =>
        refine ⟨_, _, transferAndDecode_decoded p cfg fs mediaInfo rawUrl headers
          decodeStr herr hd hdec, running_with_decrypting _ _,
          Or.inl (progressEventsEmit_two _ _ _), ?_⟩
        simp [progressEventsEmit_two]

/-! ## The file name -/

/-- C9: for a non-empty description the file-name stem is the first
`min(effective length, m)` code points of the description stripped of every
character that is neither a word character nor a Han ideograph, where the
effective length is 10 when `FilenameLen ≤ 0` and `FilenameLen` otherwise and
`m` is the number of code points left after stripping; for the description
`视频标题ABC!!@@测试更多文字` and `FilenameLen = 10` the stem is `视频标题ABC测试更`. -/
theorem fileNameOf_description (md5 : String → String) (cfg : Config) (mediaInfo : MediaInfo)
    (hD : mediaInfo.Description ≠ "") :
    fileNameOf md5 cfg mediaInfo =
      String.mk
        ((mediaInfo.Description.data.filter fun c => isWordChar c || isHan c).take
          (min (if cfg.FilenameLen ≤ 0 then 10 else cfg.FilenameLen).toNat
            (mediaInfo.Description.data.filter fun c => isWordChar c || isHan c).length)) ∧
    (mediaInfo.Description = "视频标题ABC!!@@测试更多文字" → cfg.FilenameLen = 10 →
      fileNameOf md5 cfg mediaInfo = "视频标题ABC测试更") := by
  have general : fileNameOf md5 cfg mediaInfo =
      String.mk
        ((mediaInfo.Description.data.filter fun c => isWordChar c || isHan c).take
          (min (if cfg.FilenameLen ≤ 0 then 10 else cfg.FilenameLen).toNat
            (mediaInfo.Description.data.filter fun c => isWordChar c || isHan c).length)) := by
    unfold fileNameOf stripDescription
    simp only [ne_eq, hD, not_false_eq_true, if_true]
    have hten : (10 : Int).toNat = 10 := rfl
    by_cases h0 : cfg.FilenameLen ≤ 0
    · simp only [h0, if_true]
      by_cases h1 : ((mediaInfo.Description.data.filter
          fun c => isWordChar c || isHan c).length : Int) > 10
      · rw [if_pos h1]
        congr 2
        omega
      · rw [if_neg h1, min_eq_right (by omega), List.take_length]
    · simp only [h0, if_false]
      by_cases h1 : ((mediaInfo.Description.data.filter
          fun c => isWordChar c || isHan c).length : Int) > cfg.FilenameLen
      · rw [if_pos h1]
        congr 2
        omega
      · rw [if_neg h1, min_eq_right (by omega), List.take_length]
  refine ⟨general, ?_⟩
  intro hex hn
  rw [general, hex, hn]
  decide

theorem fileNameOf_description_witness :
    sampleDescribedInfo.Description ≠ "" ∧
    fileNameOf (fun url => url) sampleConfig sampleDescribedInfo = "视频标题ABC测试更" :=
  ⟨by decide,
    (fileNameOf_description (fun url => url) sampleConfig sampleDescribedInfo (by decide)).2
      rfl rfl⟩

/-! ## The headers -/

theorem foldl_headerStep_absent (l : List (String × List String)) (h : GoMap String)
    (name : String) (hn : name ∉ l.map Prod.fst) :
    (l.foldl headerStep h) name = h name := by
  induction l generalizing h with
  | nil => rfl
  | cons e t ih =>
    simp only [List.map_cons, List.mem_cons, not_or] at hn
    rw [List.foldl_cons, ih _ hn.2]
    unfold headerStep
    split_ifs
    · simp [GoMap.store, hn.1]
    · rfl

theorem foldl_headerStep_present (l : List (String × List String)) (h : GoMap String)
    (name : String) (values : List String) (hmem : (name, values) ∈ l)
    (hnodup : (l.map Prod.fst).Nodup) :
    (l.foldl headerStep h) name =
      if values.length > 0 then some (values.getD 0 "") else h name := by
  induction l generalizing h with
  | nil => simp at hmem
  | cons e t ih =>
    simp only [List.map_cons, List.nodup_cons] at hnodup
    rw [List.foldl_cons]
    rcases List.mem_cons.mp hmem with heq | ht
    · subst heq
      rw [foldl_headerStep_absent t _ _ hnodup.1]
      unfold headerStep
      split_ifs
      · simp [GoMap.store]
      · rfl
    · rw [ih _ ht hnodup.2]
      have hne : name ≠ e.1 := by
        intro hc
        apply hnodup.1
        rw [← hc]
        exact List.mem_map.mpr ⟨(name, values), ht, rfl⟩
      split_ifs with hv
      · rfl
      · unfold headerStep
        split_ifs
        · simp [GoMap.store, hne]
        · rfl

theorem parseHeaders_eq (jsonUnmarshal : String → Except String (List (String × List String)))
    (mediaInfo : MediaInfo) (hh : String) (tempHeaders : List (String × List String))
    (hentry : mediaInfo.OtherData "headers" = some hh)
    (hparse : jsonUnmarshal hh = .ok tempHeaders) :
    parseHeaders jsonUnmarshal mediaInfo = (tempHeaders.foldl headerStep GoMap.empty, none) := by
  simp only [parseHeaders, hentry, hparse]

/-- C10: when the `headers` entry decodes to a map from names to arrays of
strings (given by its entries, whose names are distinct), `parseHeaders`
returns no error and a map that sends every name with a non-empty array to
the first element of the array and holds no other name: names with an empty
array and names that are not in the decoded map are absent. -/
theorem parseHeaders_first_values
    (jsonUnmarshal : String → Except String (List (String × List String)))
    (mediaInfo : MediaInfo) (hh : String) (tempHeaders : List (String × List String))
    (hentry : mediaInfo.OtherData "headers" = some hh)
    (hparse : jsonUnmarshal hh = .ok tempHeaders)
    (hkeys : (tempHeaders.map Prod.fst).Nodup) :
    (parseHeaders jsonUnmarshal mediaInfo).2 = none ∧
    (∀ (name first : String) (more : List String), (name, first :: more) ∈ tempHeaders →
      (parseHeaders jsonUnmarshal mediaInfo).1 name = some first) ∧
    (∀ name : String, (name, []) ∈ tempHeaders →
      (parseHeaders jsonUnmarshal mediaInfo).1 name = none) ∧
    (∀ name : String, name ∉ tempHeaders.map Prod.fst →
      (parseHeaders jsonUnmarshal mediaInfo).1 name = none) := by
  rw [parseHeaders_eq jsonUnmarshal mediaInfo hh tempHeaders hentry hparse]
  refine ⟨rfl, ?_, ?_, ?_⟩
  · intro name first more hmem
    simp [foldl_headerStep_present tempHeaders GoMap.empty name (first :: more) hmem hkeys]
  · intro name hmem
    simp [foldl_headerStep_present tempHeaders GoMap.empty name [] hmem hkeys, GoMap.empty]
  · intro name hn
    simp [foldl_headerStep_absent tempHeaders GoMap.empty name hn, GoMap.empty]

theorem parseHeaders_first_values_witness :
    refJsonUnmarshal "\x7b\"X\":[\"a\",\"b\"]\x7d" = .ok [("X", ["a", "b"])] ∧
    (parseHeaders refJsonUnmarshal sampleHeaderInfo).1 "X" = some "a" ∧
    (∀ name : String, name ∉ [("X", ["a", "b"])].map Prod.fst →
      (parseHeaders refJsonUnmarshal sampleHeaderInfo).1 name = none) :=
  have h := parseHeaders_first_values refJsonUnmarshal sampleHeaderInfo "\x7b\"X\":[\"a\",\"b\"]\x7d"
    [("X", ["a", "b"])] (by decide) (by decide) (by decide)
  ⟨by decide, h.2.1 "X" "a" ["b"] (by decide), h.2.2.2⟩

/-! ## Quality negotiation -/

theorem splitChars_ne_nil (sep : Char) (s : List Char) : splitChars sep s ≠ [] := by
  cases s with
  | nil => simp [splitChars]
  | cons c cs =>
    unfold splitChars
    split_ifs
    · simp
    · split <;> simp

theorem stringsSplitHash_length_pos (s : String) : 0 < (stringsSplitHash s).length := by
  unfold stringsSplitHash
  rw [List.length_map]
  exact List.length_pos.mpr (splitChars_ne_nil _ _)

theorem goIndex_ok (xs : List String) (i : Int) (h0 : 0 ≤ i) (h1 : i < xs.length) :
    ∃ x, goIndex xs i = .ok x ∧ xs.get? i.toNat = some x := by
  unfold goIndex
  rw [if_neg (by omega)]
  have hlt : i.toNat < xs.length := by omega
  rw [List.get?_eq_get hlt]
  exact ⟨_, rfl, rfl⟩

theorem goIndex_error (xs : List String) (i : Int) (h : (xs.length : Int) ≤ i) :
    goIndex xs i = .error "index out of range" := by
  unfold goIndex
  split_ifs
  · rfl
  · rw [List.get?_eq_none.mpr (by omega)]

/-- C5, at the URL of the claim: at quality tier 1 the URL handed on is
`https://x.qq.com//a?encfilekey=K&token=T`, with two slashes before the
path, and not `https://x.qq.com/a?encfilekey=K&token=T`. -/
theorem negotiateUrl_tier1_double_slash :
    refUrlParse sampleKeyedInfo.Url =
      .ok { Scheme := "https", Host := "x.qq.com", Path := "/a",
            RawQuery := "foo=1&encfilekey=K&token=T&bar=2" } ∧
    negotiateUrl refUrlParse refParseQuery sampleConfig sampleKeyedInfo =
      .ok "https://x.qq.com//a?encfilekey=K&token=T" ∧
    negotiateUrl refUrlParse refParseQuery sampleConfig sampleKeyedInfo ≠
      .ok "https://x.qq.com/a?encfilekey=K&token=T" := by
  refine ⟨by decide, by decide, by decide⟩

/-- C6, for every quality tier from 5 on: on a URL of the content host with a
non-empty `wx_file_formats`, the selection `qualityMap[Quality-2]` is out
of range and the goroutine panics. -/
theorem negotiateUrl_quality_ge_five (urlParse : String → Except String URL)
    (parseQuery : String → GoMap (List String)) (cfg : Config) (mediaInfo : MediaInfo)
    (hhost : stringsContains mediaInfo.Url "qq.com" = true)
    (hq : 5 ≤ cfg.Quality)
    (hformats : (mediaInfo.OtherData "wx_file_formats").getD "" ≠ "") :
    negotiateUrl urlParse parseQuery cfg mediaInfo = .error "index out of range" := by
  have hpos := stringsSplitHash_length_pos ((mediaInfo.OtherData "wx_file_formats").getD "")
  obtain ⟨a, ha, -⟩ := goIndex_ok
    (stringsSplitHash ((mediaInfo.OtherData "wx_file_formats").getD "")) 0 (by omega) (by omega)
  obtain ⟨b, hb, -⟩ := goIndex_ok
    (stringsSplitHash ((mediaInfo.OtherData "wx_file_formats").getD ""))
    (((stringsSplitHash ((mediaInfo.OtherData "wx_file_formats").getD "")).length : Int) / 2)
    (by omega) (by omega)
  obtain ⟨c, hc, -⟩ := goIndex_ok
    (stringsSplitHash ((mediaInfo.OtherData "wx_file_formats").getD ""))
    (((stringsSplitHash ((mediaInfo.OtherData "wx_file_formats").getD "")).length : Int) - 1)
    (by omega) (by omega)
  have h1 : ¬ cfg.Quality = 1 := by omega
  have h2 : cfg.Quality > 1 := by omega
  unfold negotiateUrl
  simp only [hhost, h1, h2, hformats, ha, hb, hc, if_true, decide_False, decide_True,
    Bool.false_and, Bool.true_and, ne_eq, not_false_eq_true, Bool.false_eq_true, if_false]
  rw [goIndex_error [a, b, c] (cfg.Quality - 2) (by simp; omega)]

theorem negotiateUrl_quality_ge_five_witness :
    stringsContains sampleFormatsInfo.Url "qq.com" = true ∧
    negotiateUrl refUrlParse refParseQuery { sampleConfig with Quality := 5 } sampleFormatsInfo =
      .error "index out of range" :=
  ⟨by decide,
    negotiateUrl_quality_ge_five refUrlParse refParseQuery { sampleConfig with Quality := 5 }
      sampleFormatsInfo (by decide) (by decide) (by decide)⟩

/-- A panic of the quality negotiation ends the task before anything is
sent. -/
theorem download_panicked (p : Platform) (cfg : Config) (fs : FileSystem)
    (mediaInfo : MediaInfo) (decodeStr msg : String) (hdir : cfg.SaveDirectory ≠ "")
    (h : negotiateUrl p.urlParse p.parseQuery cfg mediaInfo = .error msg) :
    download p cfg fs mediaInfo decodeStr = .panicked msg := by
  have h1 : negotiateUrl p.urlParse p.parseQuery cfg
      { mediaInfo with
        SavePath := savePathOf p.pathJoin p.now cfg mediaInfo (fileNameOf p.md5 cfg mediaInfo) } =
      .error msg := h
  simp only [download, hdir, if_false, h1]

/-! ## The copy made by `wxFileDecode` -/

theorem replaceAllAux_absent (old new : List Char) (s : List Char)
    (h : (s.tails.any fun t => old.isPrefixOf t) = false) :
    replaceAllAux old new 0 s = s := by
  induction s with
  | nil => rfl
  | cons c cs ih =>
    rw [List.tails, List.any_cons, Bool.or_eq_false_iff] at h
    rw [replaceAllAux, if_neg (by simp [h.1]), ih h.2]

theorem replaceAllAux_length_ge (old new : List Char) (hold : old ≠ [])
    (hnew : old.length ≤ new.length) (s : List Char) :
    ∀ skip : Nat, skip ≤ s.length → s.length ≤ (replaceAllAux old new skip s).length + skip := by
  induction s with
  | nil => intro skip h; simp at h; simp [replaceAllAux, h]
  | cons c cs ih =>
    intro skip h
    cases skip with
    | zero =>
      rw [replaceAllAux]
      split_ifs with hp
      · have hle : old.length ≤ (c :: cs).length :=
          (List.isPrefixOf_iff_prefix.mp hp).length_le
        have hpos : 0 < old.length := List.length_pos.mpr hold
        have := ih (old.length - 1) (by simp at hle; omega)
        simp only [List.length_append, List.length_cons]
        omega
      · have := ih 0 (by omega)
        simp only [List.length_cons]
        omega
    | succ k =>
      rw [replaceAllAux]
      have := ih k (by simp at h; omega)
      simp only [List.length_cons]
      omega

theorem replaceAllAux_length_gt (old new : List Char) (hold : old ≠ [])
    (hnew : old.length < new.length) (s : List Char)
    (h : (s.tails.any fun t => old.isPrefixOf t) = true) :
    s.length < (replaceAllAux old new 0 s).length := by
  induction s with
  | nil =>
    exfalso
    simp only [List.tails, List.any_cons, List.any_nil, Bool.or_false] at h
    cases old with
    | nil => exact hold rfl
    | cons a t => simp [List.isPrefixOf] at h
  | cons c cs ih =>
    rw [List.tails, List.any_cons, Bool.or_eq_true] at h
    rw [replaceAllAux]
    by_cases hp : old.isPrefixOf (c :: cs) = true
    · rw [if_pos hp]
      have hle : old.length ≤ (c :: cs).length := (List.isPrefixOf_iff_prefix.mp hp).length_le
      have hpos : 0 < old.length := List.length_pos.mpr hold
      have := replaceAllAux_length_ge old new hold (by omega) cs (old.length - 1)
        (by simp at hle; omega)
      simp only [List.length_append, List.length_cons]
      omega
    · rw [if_neg hp]
      have := ih (h.resolve_left hp)
      simp only [List.length_cons]
      omega

/-- A path without `.mp4` is its own decrypted path. -/
theorem savePath_eq_of_no_marker (fileName : String)
    (h : stringsContains fileName ".mp4" = false) :
    stringsReplaceAll fileName ".mp4" "_解密.mp4" = fileName := by
  unfold stringsReplaceAll
  rw [replaceAllAux_absent _ _ _ h]

/-- A path with `.mp4` differs from its decrypted path. -/
theorem savePath_ne_of_marker (fileName : String)
    (h : stringsContains fileName ".mp4" = true) :
    stringsReplaceAll fileName ".mp4" "_解密.mp4" ≠ fileName := by
  intro heq
  have hlen := replaceAllAux_length_gt ".mp4".data "_解密.mp4".data (by decide) (by decide)
    fileName.data h
  have : (stringsReplaceAll fileName ".mp4" "_解密.mp4").data = fileName.data := by rw [heq]
  unfold stringsReplaceAll at this
  simp only at this
  rw [this] at hlen
  exact lt_irrefl _ hlen

/-- The decoder touches no file but the one it is given. -/
theorem decodeWxFile_frame (b64 : String → Except String (List Nat)) (fs : FileSystem)
    (fileName decodeStr other : String) (h : other ≠ fileName) :
    (decodeWxFile b64 fs fileName decodeStr).1 other = fs other := by
  unfold decodeWxFile
  cases b64 decodeStr with
  | error e => rfl
  | ok key =>
    cases hf : fs fileName with
    | none => simp only [hf]
    | some B => simp [hf, FileSystem.put, h]

/-- For a source path that contains `.mp4`, `wxFileDecode` leaves the source
file as it was, whether it succeeds or fails. -/
theorem wxFileDecode_source_kept (b64 : String → Except String (List Nat)) (fs : FileSystem)
    (fileName decodeStr : String) (h : stringsContains fileName ".mp4" = true) :
    (wxFileDecode b64 fs fileName decodeStr).1 fileName = fs fileName := by
  have hne : fileName ≠ stringsReplaceAll fileName ".mp4" "_解密.mp4" :=
    fun e => savePath_ne_of_marker fileName h e.symm
  unfold wxFileDecode
  cases hf : fs fileName with
  | none => simp only [hf]
  | some B =>
    simp only
    have hframe := decodeWxFile_frame b64
      ((fs.put (stringsReplaceAll fileName ".mp4" "_解密.mp4") []).put
        (stringsReplaceAll fileName ".mp4" "_解密.mp4")
        (((fs.put (stringsReplaceAll fileName ".mp4" "_解密.mp4") []) fileName).getD []))
      (stringsReplaceAll fileName ".mp4" "_解密.mp4") decodeStr fileName hne
    split
    · next fs3 err heq =>
      rw [heq] at hframe
      show fs3 fileName = some B
      refine Eq.trans hframe ?_
      simp [FileSystem.put, hne, hf]
    · next fs3 heq =>
      rw [heq] at hframe
      show fs3 fileName = some B
      refine Eq.trans hframe ?_
      simp [FileSystem.put, hne, hf]

theorem wxFileDecode_source_kept_witness :
    stringsContains "clip.mp4" ".mp4" = true ∧
    (wxFileDecode refBase64Decode sampleFiles "clip.mp4" "AQID").1 "clip.mp4" =
      sampleFiles "clip.mp4" :=
  ⟨by decide, wxFileDecode_source_kept refBase64Decode sampleFiles "clip.mp4" "AQID" (by decide)⟩

theorem xorLoop_zeros (key : List Nat) :
    xorLoop key.length key (List.replicate key.length 0) = key := by
  apply List.ext_getElem?
  intro i
  by_cases hi : i < key.length
  · rw [xorLoop_getElem? _ _ _ _ hi, List.getD_eq_getElem?_getD, List.getD_eq_getElem?_getD,
      List.getElem?_eq_getElem hi, List.getElem?_replicate]
    simp [hi]
  · rw [List.getElem?_eq_none (by rw [xorLoop_length]; omega), List.getElem?_eq_none (by omega)]

/-- For a source path without `.mp4` and a key that decodes, `wxFileDecode`
succeeds, returns the source path, and the source file ends up holding the
key bytes in place of its content. -/
theorem wxFileDecode_no_marker (b64 : String → Except String (List Nat)) (fs : FileSystem)
    (fileName decodeStr : String) (key B : List Nat)
    (h : stringsContains fileName ".mp4" = false)
    (hfile : fs fileName = some B) (hkey : b64 decodeStr = .ok key) :
    (wxFileDecode b64 fs fileName decodeStr).2 = .ok fileName ∧
    (wxFileDecode b64 fs fileName decodeStr).1 fileName =
      some key := by
  unfold wxFileDecode
  simp only [hfile, savePath_eq_of_no_marker fileName h]
  have hcopy : ((fs.put fileName []) fileName).getD [] = [] := by simp [FileSystem.put]
  rw [hcopy]
  rw [decodeWxFile_eq b64 _ fileName decodeStr key [] hkey (by simp [FileSystem.put])]
  simp [FileSystem.put, readIntoZeroed, xorLoop_zeros]

theorem wxFileDecode_no_marker_witness :
    stringsContains "clip.mov" ".mp4" = false ∧
    sampleFiles "clip.mov" = some [10, 20, 30] ∧
    (wxFileDecode refBase64Decode sampleFiles "clip.mov" "AQID").1 "clip.mov" = some [1, 2, 3] :=
  ⟨by decide, by decide,
    (wxFileDecode_no_marker refBase64Decode sampleFiles "clip.mov" "AQID" [1, 2, 3] [10, 20, 30]
      (by decide) (by decide) (by decide)).2⟩

/-- The decoder maps bytes to bytes. -/
theorem decodeWxFile_bytes_lt (b64 : String → Except String (List Nat)) (fs : FileSystem)
    (fileName decodeStr : String) (key B B1 : List Nat)
    (hkey : b64 decodeStr = .ok key) (hfile : fs fileName = some B)
    (hk : ∀ x ∈ key, x < 256) (hB : ∀ x ∈ B, x < 256)
    (hres : (decodeWxFile b64 fs fileName decodeStr).1 fileName = some B1) :
    ∀ x ∈ B1, x < 256 := by
  rw [decodeWxFile_eq b64 fs fileName decodeStr key B hkey hfile] at hres
  simp only [FileSystem.put, if_true, Option.some.injEq] at hres
  subst hres
  intro x hx
  rw [List.mem_append] at hx
  rcases hx with hx | hx
  · simp only [xorLoop, List.mem_map, List.mem_range] at hx
    obtain ⟨i, hi, rfl⟩ := hx
    have h1 : key.getD i 0 < 2 ^ 8 := by
      rw [List.getD_eq_getElem?_getD, List.getElem?_eq_getElem hi]
      exact hk _ (List.getElem_mem _)
    have h2 : (readIntoZeroed B key.length).getD i 0 < 2 ^ 8 := by
      rw [readIntoZeroed_getD _ _ _ hi, List.getD_eq_getElem?_getD]
      by_cases hb : i < B.length
      · rw [List.getElem?_eq_getElem hb]
        exact hB _ (List.getElem_mem _)
      · rw [List.getElem?_eq_none (by omega)]
        decide
    exact Nat.xor_lt_two_pow h1 h2
  · exact hB x (List.mem_of_mem_drop hx)

/-! ## Quality tier 1 -/

/-- At quality tier 1, on a URL of the content host that holds `encfilekey=`
and `token=`, parses, and whose query has both parameters, the URL handed on
is the scheme, `://`, the host, a slash, the parsed path and the two
parameters. -/
theorem negotiateUrl_tier1 (urlParse : String → Except String URL)
    (parseQuery : String → GoMap (List String)) (cfg : Config) (mediaInfo : MediaInfo)
    (u : URL)
    (hhost : stringsContains mediaInfo.Url "qq.com" = true)
    (hq : cfg.Quality = 1)
    (hkey : stringsContains mediaInfo.Url "encfilekey=" = true)
    (htoken : stringsContains mediaInfo.Url "token=" = true)
    (hparse : urlParse mediaInfo.Url = .ok u)
    (hk : valuesHas (parseQuery u.RawQuery) "encfilekey" = true)
    (ht : valuesHas (parseQuery u.RawQuery) "token" = true) :
    negotiateUrl urlParse parseQuery cfg mediaInfo =
      .ok (u.Scheme ++ "://" ++ u.Host ++ "/" ++ u.Path ++
        "?encfilekey=" ++ valuesGet (parseQuery u.RawQuery) "encfilekey" ++
        "&token=" ++ valuesGet (parseQuery u.RawQuery) "token") := by
  simp [negotiateUrl, hhost, hq, hkey, htoken, hparse, hk, ht]

/-- At quality tier 1, a URL of the content host that holds `encfilekey=`
and `token=` and does not parse makes the goroutine panic. -/
theorem negotiateUrl_tier1_parse_error (urlParse : String → Except String URL)
    (parseQuery : String → GoMap (List String)) (cfg : Config) (mediaInfo : MediaInfo)
    (e : String)
    (hhost : stringsContains mediaInfo.Url "qq.com" = true)
    (hq : cfg.Quality = 1)
    (hkey : stringsContains mediaInfo.Url "encfilekey=" = true)
    (htoken : stringsContains mediaInfo.Url "token=" = true)
    (hparse : urlParse mediaInfo.Url = .error e) :
    negotiateUrl urlParse parseQuery cfg mediaInfo =
      .error "invalid memory address or nil pointer dereference" := by
  simp [negotiateUrl, hhost, hq, hkey, htoken, hparse]


/-! ## The task as a whole -/

/-- The payloads of the transfer and post-processing part are a run of
`running` payloads and then one payload with status `done` or `error`. -/
theorem transferAndDecode_shape (p : Platform) (cfg : Config) (fs : FileSystem)
    (mediaInfo : MediaInfo) (rawUrl : String) (headers : GoMap String) (decodeStr : String) :
    ∃ (running : List Event) (terminal : Event),
      (transferAndDecode p cfg fs mediaInfo rawUrl headers decodeStr).1 = running ++ [terminal] ∧
      (∀ e ∈ running, e.Status = DownloadStatusRunning) ∧
      (terminal.Status = DownloadStatusDone ∨ terminal.Status = DownloadStatusError) := by
  cases herr : (p.transfer rawUrl mediaInfo.SavePath cfg.TaskNumber headers fs).err with
  | some err =>
    exact ⟨_, _, transferAndDecode_transfer_failed p cfg fs mediaInfo rawUrl headers decodeStr
      err herr, progressEvents_running _ _, Or.inr (progressEventsEmit_one _ _)⟩
  | none =>
    by_cases hd : decodeStr = ""
    · subst hd
      exact ⟨_, _, transferAndDecode_no_key p cfg fs mediaInfo rawUrl headers herr,
        progressEvents_running _ _, Or.inl (progressEventsEmit_two _ _ _)⟩
    · cases hdec : (decodeWxFile p.base64Decode
          (p.transfer rawUrl mediaInfo.SavePath cfg.TaskNumber headers fs).fs
          mediaInfo.SavePath decodeStr).2 with
      | some err =>
        exact ⟨_, _, transferAndDecode_decode_failed p cfg fs mediaInfo rawUrl headers
          decodeStr err herr hd hdec, running_with_decrypting _ _,
          Or.inr (progressEventsEmit_one _ _)⟩
      | none =>
        exact ⟨_, _, transferAndDecode_decoded p cfg fs mediaInfo rawUrl headers
          decodeStr herr hd hdec, running_with_decrypting _ _,
          Or.inl (progressEventsEmit_two _ _ _)⟩

/-- A task that returns has sent a run of `running` payloads and then one
payload with status `done` or `error`. -/
theorem download_finished_events (p : Platform) (cfg : Config) (fs fs1 : FileSystem)
    (mediaInfo : MediaInfo) (decodeStr : String) (events : List Event)
    (h : download p cfg fs mediaInfo decodeStr = .finished events fs1) :
    ∃ (running : List Event) (terminal : Event), events = running ++ [terminal] ∧
      (∀ e ∈ running, e.Status = DownloadStatusRunning) ∧
      (terminal.Status = DownloadStatusDone ∨ terminal.Status = DownloadStatusError) := by
  unfold download at h
  split_ifs at h
  simp only at h
  split at h
  · exact absurd h (by simp)
  · next rawUrl _ =>
    simp only [TaskResult.finished.injEq] at h
    obtain ⟨running, terminal, h1, h2, h3⟩ := transferAndDecode_shape p cfg fs
      { mediaInfo with
        SavePath := savePathOf p.pathJoin p.now cfg mediaInfo (fileNameOf p.md5 cfg mediaInfo) }
      rawUrl
      (parseHeaders p.jsonUnmarshal
        { mediaInfo with
          SavePath :=
            savePathOf p.pathJoin p.now cfg mediaInfo (fileNameOf p.md5 cfg mediaInfo) }).1
      decodeStr
    exact ⟨running, terminal, h.1 ▸ h1, h2, h3⟩

/-- A run of `download` on the reference platform: two progress payloads,
the decrypting payload and `done`, all with the derived save path. -/
theorem download_sample_run :
    (download samplePlatform sampleConfig sampleFiles sampleDescribedInfo "AQID").events =
      some
        [{ Id := "3", Status := "running", SavePath := "/downloads/视频标题ABC测试更.mp4",
           Message := "50%" },
         { Id := "3", Status := "running", SavePath := "/downloads/视频标题ABC测试更.mp4",
           Message := "100%" },
         { Id := "3", Status := "running", SavePath := "/downloads/视频标题ABC测试更.mp4",
           Message := "解密中" },
         { Id := "3", Status := "done", SavePath := "/downloads/视频标题ABC测试更.mp4",
           Message := "完成" }] := by
  decide

/-- A run of `download` at quality tier 5: the goroutine panics. -/
theorem download_sample_panic :
    (download samplePlatform { sampleConfig with Quality := 5 } sampleFiles sampleFormatsInfo
      "").panic = some "index out of range" := by
  rw [download_panicked samplePlatform { sampleConfig with Quality := 5 } sampleFiles
    sampleFormatsInfo "" "index out of range" (by decide) (by decide)]
  rfl

/-! ## The category filter across calls -/

theorem GoMap.ofList_absent {V : Type} (entries : List (String × V)) (m : GoMap V) (k : String)
    (hk : k ∉ entries.map Prod.fst) :
    (entries.foldl (fun m e => GoMap.store m e.1 e.2) m) k = m k := by
  induction entries generalizing m with
  | nil => rfl
  | cons e t ih =>
    simp only [List.map_cons, List.mem_cons, not_or] at hk
    rw [List.foldl_cons, ih _ hk.2]
    simp [GoMap.store, hk.1]

theorem resetFilter_unknown (c : String) (hc : c ∉ knownResTypes) :
    GoMap.ofList (knownResTypes.map fun c => (c, false)) c = none := by
  unfold GoMap.ofList
  rw [GoMap.ofList_absent _ _ _ (by simpa using hc)]
  rfl

theorem initFilter_known (c : String) (hc : c ∈ knownResTypes) :
    GoMap.ofList (knownResTypes.map fun c => (c, true)) c = some true := by
  simp only [knownResTypes, List.mem_cons, List.mem_singleton, List.not_mem_nil, or_false] at hc
  rcases hc with h | h | h | h | h | h | h | h | h <;> subst h <;> decide

theorem initFilter_unknown (c : String) (hc : c ∉ knownResTypes) :
    GoMap.ofList (knownResTypes.map fun c => (c, true)) c = none := by
  unfold GoMap.ofList
  rw [GoMap.ofList_absent _ _ _ (by simpa using hc)]
  rfl

/-- What `getResType` answers after `setResType L`, for every name. -/
theorem getResType_setResType (r : Resource) (L : List String) (c : String) :
    getResType (setResType r L) c =
      if c ∈ L then (true, true)
      else if c ∈ knownResTypes then (false, true) else (false, false) := by
  unfold getResType setResType
  simp only [GoMap.foldl_store_true]
  by_cases hL : c ∈ L
  · simp [hL]
  · by_cases hk : c ∈ knownResTypes
    · simp [hL, hk, resetFilter_known c hk]
    · simp [hL, hk, resetFilter_unknown c hk]

/-- What `getResType` answers on the registry of `initResource`, for every
name. -/
theorem getResType_init (c : String) :
    getResType initResource c =
      if c ∈ knownResTypes then (true, true) else (false, false) := by
  unfold getResType initResource
  by_cases hk : c ∈ knownResTypes
  · simp [hk, initFilter_known c hk]
  · simp [hk, initFilter_unknown c hk]

/-- C18: on the registry `initResource` builds, before any `setResType`,
`getResType` returns `(true, true)` for each of the nine known categories
and `(false, false)` for every other name. -/
theorem getResType_initResource :
    (∀ c ∈ knownResTypes, getResType initResource c = (true, true)) ∧
    (∀ c : String, c ∉ knownResTypes → getResType initResource c = (false, false)) := by
  constructor
  · intro c hc
    rw [getResType_init, if_pos hc]
  · intro c hc
    rw [getResType_init, if_neg hc]

theorem getResType_initResource_witness :
    "video" ∈ knownResTypes ∧ "zip" ∉ knownResTypes ∧
    getResType initResource "video" = (true, true) ∧
    getResType initResource "zip" = (false, false) :=
  ⟨by decide, by decide, getResType_initResource.1 "video" (by decide),
    getResType_initResource.2 "zip" (by decide)⟩

/-- C16: after `setResType L`, a name of `L` that is not one of the nine known
categories reads `(true, true)`, and a name that is neither in `L` nor among
the nine reads `(false, false)`. -/
theorem setResType_getResType_unknown (r : Resource) (L : List String) (c : String)
    (hc : c ∉ knownResTypes) :
    (c ∈ L → getResType (setResType r L) c = (true, true)) ∧
    (c ∉ L → getResType (setResType r L) c = (false, false)) := by
  rw [getResType_setResType]
  constructor
  · intro h; simp [h]
  · intro h; simp [h, hc]

theorem setResType_getResType_unknown_witness :
    "zip" ∉ knownResTypes ∧
    getResType (setResType initResource ["video", "zip"]) "zip" = (true, true) ∧
    getResType (setResType initResource ["video"]) "zip" = (false, false) :=
  ⟨by decide,
    (setResType_getResType_unknown initResource ["video", "zip"] "zip" (by decide)).1 (by decide),
    (setResType_getResType_unknown initResource ["video"] "zip" (by decide)).2 (by decide)⟩

/-- C17: the filter after `setResType L1` followed by `setResType L2` answers
`getResType` for every name exactly as the filter after `setResType L2`
alone. -/
theorem setResType_replaces (r : Resource) (L1 L2 : List String) (c : String) :
    getResType (setResType (setResType r L1) L2) c = getResType (setResType r L2) c := by
  rw [getResType_setResType, getResType_setResType]

/-- C11 as stated fails: after `setResType ["zip"]` and then `setResType []`
on the initial registry, `getResType "zip"` returns `known = false` although
`zip` was named in a call made before. -/
theorem getResType_unknown_after_named :
    ¬ ∀ (calls : List (List String)) (c : String),
      (getResType (calls.foldl setResType initResource) c).2 = false →
        c ∉ knownResTypes ∧ ∀ L ∈ calls, c ∉ L := by
  intro h
  have h1 := (h [["zip"], []] "zip" (by decide)).2 ["zip"] (by decide)
  exact h1 (by decide)

/-- C11, amended: after any sequence of `setResType` calls on the initial
registry, when `getResType c` returns `known = false` the name `c` is not one
of the nine known categories and was not named in the most recent call. -/
theorem getResType_unknown_last_call (calls : List (List String)) (c : String)
    (h : (getResType (calls.foldl setResType initResource) c).2 = false) :
    c ∉ knownResTypes ∧ ∀ L, calls.getLast? = some L → c ∉ L := by
  rcases List.eq_nil_or_concat calls with hnil | ⟨earlier, L, hcalls⟩
  · subst hnil
    rw [List.foldl_nil, getResType_init] at h
    constructor
    · intro hk; simp [hk] at h
    · intro L hL; simp at hL
  · subst hcalls
    rw [List.concat_eq_append] at h ⊢
    rw [List.foldl_append, List.foldl_cons, List.foldl_nil, getResType_setResType] at h
    have hL : c ∉ L := by intro hm; simp [hm] at h
    have hk : c ∉ knownResTypes := by intro hm; simp [hL, hm] at h
    refine ⟨hk, ?_⟩
    intro L1 hlast
    rw [List.getLast?_append, List.getLast?_singleton] at hlast
    simp at hlast
    rw [← hlast]; exact hL

theorem getResType_unknown_last_call_witness :
    (getResType ([["zip"], ["video"]].foldl setResType initResource) "zip").2 = false ∧
    "zip" ∉ knownResTypes ∧ "zip" ∉ ["video"] :=
  have h := getResType_unknown_last_call [["zip"], ["video"]] "zip" (by decide)
  ⟨by decide, h.1, h.2 ["video"] rfl⟩

/-! ## Failing headers, short files, unchanged URLs -/

/-- C12: when the `headers` entry does not decode, `parseHeaders` returns the
empty map together with an error; when there is no `headers` entry it
returns the empty map and no error. -/
theorem parseHeaders_failure (jsonUnmarshal : String → Except String (List (String × List String)))
    (mediaInfo : MediaInfo) :
    (∀ hh err : String, mediaInfo.OtherData "headers" = some hh →
      jsonUnmarshal hh = .error err →
      parseHeaders jsonUnmarshal mediaInfo =
        (GoMap.empty, some ("parse headers JSON err: " ++ err))) ∧
    (mediaInfo.OtherData "headers" = none →
      parseHeaders jsonUnmarshal mediaInfo = (GoMap.empty, none)) := by
  constructor
  · intro hh err hentry hparse
    simp only [parseHeaders, hentry, hparse]
  · intro hentry
    simp only [parseHeaders, hentry]

/-- C14: when the key decodes to `K` bytes and the file holds `n < K` bytes,
`decodeWxFile` succeeds and leaves a file of exactly `K` bytes: byte `i < n`
is `key[i] XOR B[i]` and byte `i` with `n ≤ i < K` is the key byte
`key[i]`. -/
theorem decodeWxFile_short_file (b64 : String → Except String (List Nat)) (fs : FileSystem)
    (fileName decodeStr : String) (key B : List Nat)
    (hkey : b64 decodeStr = .ok key) (hfile : fs fileName = some B)
    (hlen : B.length < key.length) :
    (decodeWxFile b64 fs fileName decodeStr).2 = none ∧
    ∃ B1 : List Nat, (decodeWxFile b64 fs fileName decodeStr).1 fileName = some B1 ∧
      B1.length = key.length ∧
      (∀ i, i < B.length → B1[i]? = some (key.getD i 0 ^^^ B.getD i 0)) ∧
      (∀ i, B.length ≤ i → i < key.length → B1[i]? = key[i]?) := by
  rw [decodeWxFile_eq b64 fs fileName decodeStr key B hkey hfile]
  refine ⟨rfl, xorLoop key.length key (readIntoZeroed B key.length) ++ B.drop key.length,
    by simp [FileSystem.put], ?_, ?_, ?_⟩
  · simp [xorLoop_length]
    omega
  · intro i hi
    exact decoded_getElem?_lt key B i (by omega)
  · intro i hi hik
    rw [decoded_getElem?_lt key B i hik, List.getD_eq_getElem?_getD, List.getD_eq_getElem?_getD,
      List.getElem?_eq_getElem hik, List.getElem?_eq_none hi]
    simp

/-- C15: the URL handed on is the original `Url` whenever the URL does not
contain the content host pattern, whatever the quality tier, and whenever
the quality tier is 0 or negative, whatever the URL and the side data. -/
theorem negotiateUrl_unchanged (urlParse : String → Except String URL)
    (parseQuery : String → GoMap (List String)) (cfg : Config) (mediaInfo : MediaInfo) :
    (stringsContains mediaInfo.Url "qq.com" = false →
      negotiateUrl urlParse parseQuery cfg mediaInfo = .ok mediaInfo.Url) ∧
    (cfg.Quality ≤ 0 →
      negotiateUrl urlParse parseQuery cfg mediaInfo = .ok mediaInfo.Url) := by
  constructor
  · intro h
    simp [negotiateUrl, h]
  · intro h
    have h1 : ¬ cfg.Quality = 1 := by omega
    have h2 : ¬ cfg.Quality > 1 := by omega
    unfold negotiateUrl
    simp only [h1, h2, decide_False, Bool.false_and, Bool.false_eq_true, if_false]
    split_ifs <;> rfl

theorem parseHeaders_failure_witness :
    sampleBrokenHeaderInfo.OtherData "headers" = some "\x7b\"X\":[\"a\"],\"Y\":5\x7d" ∧
    parseHeaders refJsonUnmarshal sampleBrokenHeaderInfo =
      (GoMap.empty,
        some ("parse headers JSON err: " ++
          "cannot unmarshal into Go value of type map[string][]string")) :=
  ⟨by decide,
    (parseHeaders_failure refJsonUnmarshal sampleBrokenHeaderInfo).1
      "\x7b\"X\":[\"a\"],\"Y\":5\x7d"
      "cannot unmarshal into Go value of type map[string][]string" (by decide) (by decide)⟩

theorem decodeWxFile_short_file_witness :
    refBase64Decode "AQIDBA==" = .ok [1, 2, 3, 4] ∧
    sampleFiles "clip.mov" = some [10, 20, 30] ∧
    (decodeWxFile refBase64Decode sampleFiles "clip.mov" "AQIDBA==").2 = none ∧
    (decodeWxFile refBase64Decode sampleFiles "clip.mov" "AQIDBA==").1 "clip.mov" =
      some [11, 22, 29, 4] :=
  ⟨by decide, by decide,
    (decodeWxFile_short_file refBase64Decode sampleFiles "clip.mov" "AQIDBA==" [1, 2, 3, 4]
      [10, 20, 30] (by decide) (by decide) (by decide)).1,
    by decide⟩

theorem negotiateUrl_unchanged_witness :
    stringsContains sampleDescribedInfo.Url "qq.com" = false ∧
    negotiateUrl refUrlParse refParseQuery { sampleConfig with Quality := 4 }
      sampleDescribedInfo = .ok "https://example.com/v" ∧
    negotiateUrl refUrlParse refParseQuery { sampleConfig with Quality := 0 }
      sampleFormatsInfo = .ok "https://x.qq.com/a" :=
  ⟨by decide,
    (negotiateUrl_unchanged refUrlParse refParseQuery { sampleConfig with Quality := 4 }
      sampleDescribedInfo).1 (by decide),
    (negotiateUrl_unchanged refUrlParse refParseQuery { sampleConfig with Quality := 0 }
      sampleFormatsInfo).2 (by decide)⟩

/-! ## Quality tiers 2 to 4 and descriptions without a stem -/

/-- C13: on a URL of the content host, at quality tier 2, 3 or 4 and with a
non-empty `wx_file_formats` that splits on `#` into the list `f` of length
`n`, the URL handed on is the original URL followed by `&X-snsvideoflag=`
and `f[0]` at tier 2, `f[n / 2]` at tier 3, `f[n - 1]` at tier 4. -/
theorem negotiateUrl_tier_formats (urlParse : String → Except String URL)
    (parseQuery : String → GoMap (List String)) (cfg : Config) (mediaInfo : MediaInfo)
    (hhost : stringsContains mediaInfo.Url "qq.com" = true)
    (hq : cfg.Quality = 2 ∨ cfg.Quality = 3 ∨ cfg.Quality = 4)
    (hformats : (mediaInfo.OtherData "wx_file_formats").getD "" ≠ "") :
    ∃ first middle last : String,
      (stringsSplitHash ((mediaInfo.OtherData "wx_file_formats").getD "")).get? 0 = some first ∧
      (stringsSplitHash ((mediaInfo.OtherData "wx_file_formats").getD "")).get?
        ((stringsSplitHash ((mediaInfo.OtherData "wx_file_formats").getD "")).length / 2) =
        some middle ∧
      (stringsSplitHash ((mediaInfo.OtherData "wx_file_formats").getD "")).get?
        ((stringsSplitHash ((mediaInfo.OtherData "wx_file_formats").getD "")).length - 1) =
        some last ∧
      negotiateUrl urlParse parseQuery cfg mediaInfo =
        .ok (mediaInfo.Url ++ "&X-snsvideoflag=" ++
          (if cfg.Quality = 2 then first else if cfg.Quality = 3 then middle else last)) := by
  have hpos := stringsSplitHash_length_pos ((mediaInfo.OtherData "wx_file_formats").getD "")
  obtain ⟨a, ha, ha1⟩ := goIndex_ok
    (stringsSplitHash ((mediaInfo.OtherData "wx_file_formats").getD "")) 0 (by omega) (by omega)
  obtain ⟨b, hb, hb1⟩ := goIndex_ok
    (stringsSplitHash ((mediaInfo.OtherData "wx_file_formats").getD ""))
    (((stringsSplitHash ((mediaInfo.OtherData "wx_file_formats").getD "")).length : Int) / 2)
    (by omega) (by omega)
  obtain ⟨c, hc, hc1⟩ := goIndex_ok
    (stringsSplitHash ((mediaInfo.OtherData "wx_file_formats").getD ""))
    (((stringsSplitHash ((mediaInfo.OtherData "wx_file_formats").getD "")).length : Int) - 1)
    (by omega) (by omega)
  have e0 : (0 : Int).toNat = 0 := rfl
  have e1 : (((stringsSplitHash ((mediaInfo.OtherData "wx_file_formats").getD "")).length : Int)
      / 2).toNat =
      (stringsSplitHash ((mediaInfo.OtherData "wx_file_formats").getD "")).length / 2 := by
    omega
  have e2 : (((stringsSplitHash ((mediaInfo.OtherData "wx_file_formats").getD "")).length : Int)
      - 1).toNat =
      (stringsSplitHash ((mediaInfo.OtherData "wx_file_formats").getD "")).length - 1 := by
    omega
  rw [e0] at ha1
  rw [e1] at hb1
  rw [e2] at hc1
  have h1 : ¬ cfg.Quality = 1 := by omega
  have h2 : cfg.Quality > 1 := by omega
  refine ⟨a, b, c, ha1, hb1, hc1, ?_⟩
  unfold negotiateUrl
  simp only [hhost, h1, h2, hformats, ha, hb, hc, if_true, decide_False, decide_True,
    Bool.false_and, Bool.true_and, ne_eq, not_false_eq_true, Bool.false_eq_true, if_false]
  rcases hq with hq | hq | hq <;> rw [hq] <;> rfl

theorem stripDescription_symbols (D : String)
    (hsym : ∀ c ∈ D.data, isWordChar c = false ∧ isHan c = false) :
    stripDescription D = "" := by
  unfold stripDescription
  have : (D.data.filter fun c => isWordChar c || isHan c) = [] := by
    rw [List.filter_eq_nil_iff]
    intro c hc
    simp [hsym c hc]
  rw [this]

/-- The file name and save path of a resource whose non-empty description
has only characters outside both classes. -/
theorem savePathOf_symbols (md5 : String → String) (pathJoin : String → String → String)
    (now : String) (cfg : Config) (mediaInfo : MediaInfo)
    (hD : mediaInfo.Description ≠ "")
    (hsym : ∀ c ∈ mediaInfo.Description.data, isWordChar c = false ∧ isHan c = false) :
    fileNameOf md5 cfg mediaInfo = "" ∧
    (cfg.FilenameTime = false →
      savePathOf pathJoin now cfg mediaInfo (fileNameOf md5 cfg mediaInfo) =
        pathJoin cfg.SaveDirectory mediaInfo.Suffix) := by
  have hname : fileNameOf md5 cfg mediaInfo = "" := by
    unfold fileNameOf
    simp only [ne_eq, hD, not_false_eq_true, if_true, stripDescription_symbols _ hsym]
    have hlen : ¬ ((("" : String).data.length : Int) >
        (if cfg.FilenameLen ≤ 0 then 10 else cfg.FilenameLen)) := by
      have : ("" : String).data.length = 0 := rfl
      rw [this]
      split_ifs <;> omega
    rw [if_neg hlen]
  refine ⟨hname, ?_⟩
  intro ht
  rw [hname]
  unfold savePathOf
  simp [ht]

/-- C19: for a non-empty description made only of characters that are
neither word characters nor Han ideographs, the file-name stem is the empty
string whatever the hash function, so with the time stamp disabled the save
path is the directory joined with the suffix alone, and it is the same for
every such resource with that suffix, whatever its URL. -/
theorem fileNameOf_symbols_only (md5 : String → String) (pathJoin : String → String → String)
    (now : String) (cfg : Config) (mediaInfo : MediaInfo)
    (hD : mediaInfo.Description ≠ "")
    (hsym : ∀ c ∈ mediaInfo.Description.data, isWordChar c = false ∧ isHan c = false) :
    fileNameOf md5 cfg mediaInfo = "" ∧
    (cfg.FilenameTime = false →
      savePathOf pathJoin now cfg mediaInfo (fileNameOf md5 cfg mediaInfo) =
        pathJoin cfg.SaveDirectory mediaInfo.Suffix) ∧
    (cfg.FilenameTime = false →
      ∀ other : MediaInfo, other.Description ≠ "" →
        (∀ c ∈ other.Description.data, isWordChar c = false ∧ isHan c = false) →
        other.Suffix = mediaInfo.Suffix →
        savePathOf pathJoin now cfg other (fileNameOf md5 cfg other) =
          savePathOf pathJoin now cfg mediaInfo (fileNameOf md5 cfg mediaInfo)) := by
  have h := savePathOf_symbols md5 pathJoin now cfg mediaInfo hD hsym
  refine ⟨h.1, h.2, ?_⟩
  intro ht other hD2 hsym2 hsuf
  rw [h.2 ht, (savePathOf_symbols md5 pathJoin now cfg other hD2 hsym2).2 ht, hsuf]

theorem fileNameOf_symbols_only_witness :
    sampleSymbolsInfo.Description ≠ "" ∧
    fileNameOf samplePlatform.md5 sampleConfig sampleSymbolsInfo = "" ∧
    savePathOf samplePlatform.pathJoin samplePlatform.now sampleConfig sampleSymbolsInfo
      (fileNameOf samplePlatform.md5 sampleConfig sampleSymbolsInfo) = "/downloads/.mp4" :=
  have h := fileNameOf_symbols_only samplePlatform.md5 samplePlatform.pathJoin samplePlatform.now
    sampleConfig sampleSymbolsInfo (by decide) (by decide)
  ⟨by decide, h.1, (h.2.1 rfl).trans (by decide)⟩

theorem negotiateUrl_tier_formats_witness :
    stringsContains sampleFormatsInfo.Url "qq.com" = true ∧
    negotiateUrl refUrlParse refParseQuery { sampleConfig with Quality := 3 }
      sampleFormatsInfo = .ok "https://x.qq.com/a&X-snsvideoflag=b" ∧
    ∃ first middle last : String,
      (stringsSplitHash "a#b#c").get? 0 = some first ∧
      (stringsSplitHash "a#b#c").get? ((stringsSplitHash "a#b#c").length / 2) = some middle ∧
      (stringsSplitHash "a#b#c").get? ((stringsSplitHash "a#b#c").length - 1) = some last ∧
      negotiateUrl refUrlParse refParseQuery { sampleConfig with Quality := 3 }
          sampleFormatsInfo =
        .ok (sampleFormatsInfo.Url ++ "&X-snsvideoflag=" ++
          (if (3 : Int) = 2 then first else if (3 : Int) = 3 then middle else last)) :=
  ⟨by decide, by decide,
    negotiateUrl_tier_formats refUrlParse refParseQuery { sampleConfig with Quality := 3 }
      sampleFormatsInfo (by decide) (by decide) (by decide)⟩

/-- A task whose quality negotiation yields a URL runs the transfer on that
URL, with the derived save path and the parsed headers. -/
theorem download_finished (p : Platform) (cfg : Config) (fs : FileSystem)
    (mediaInfo : MediaInfo) (decodeStr rawUrl : String) (hdir : cfg.SaveDirectory ≠ "")
    (h : negotiateUrl p.urlParse p.parseQuery cfg mediaInfo = .ok rawUrl) :
    download p cfg fs mediaInfo decodeStr =
      .finished
        (transferAndDecode p cfg fs
          { mediaInfo with
            SavePath :=
              savePathOf p.pathJoin p.now cfg mediaInfo (fileNameOf p.md5 cfg mediaInfo) }
          rawUrl
          (parseHeaders p.jsonUnmarshal
            { mediaInfo with
              SavePath :=
                savePathOf p.pathJoin p.now cfg mediaInfo (fileNameOf p.md5 cfg mediaInfo) }).1
          decodeStr).1
        (transferAndDecode p cfg fs
          { mediaInfo with
            SavePath :=
              savePathOf p.pathJoin p.now cfg mediaInfo (fileNameOf p.md5 cfg mediaInfo) }
          rawUrl
          (parseHeaders p.jsonUnmarshal
            { mediaInfo with
              SavePath :=
                savePathOf p.pathJoin p.now cfg mediaInfo (fileNameOf p.md5 cfg mediaInfo) }).1
          decodeStr).2 := by
  have h1 : negotiateUrl p.urlParse p.parseQuery cfg
      { mediaInfo with
        SavePath := savePathOf p.pathJoin p.now cfg mediaInfo (fileNameOf p.md5 cfg mediaInfo) } =
      .ok rawUrl := h
  simp only [download, hdir, if_false, h1]

end ResDownloader
